import Mathlib

/-!
Shallow embedding of the `contracts` Anchor program
(`src/contracts/programs/contracts/src/lib.rs`) — the launch-pool state
machine with its contribution ledger, confirmation-vote tally, distribution
engine and claim/refund engine.

Modelling conventions:
* Machine integers are `Nat` with explicit bound checks against `2 ^ 64`
  (u64), `2 ^ 32` (u32) and `2 ^ 128` (u128) where overflow matters.
* Modelled from the spec: the Cargo build profile of the repository (which fixes
  the Rust behaviour on integer overflow for the plain `+=` and `*` sites) is
  not under `src/`.  Per spec §7(c) — "arithmetic-safety errors — counter
  overflow — fatal to that call, never silently wrapped" — those sites are
  modelled as checked arithmetic returning `LaunchError.Overflow`.
  The `as u64` narrowing cast in `claim` is a genuine Rust modular cast and
  is modelled as `% 2 ^ 64`.
* Pubkeys, PDA seeds, bumps, the pool-id string, the merkle root and the
  CPI plumbing are identity/crypto details with no arithmetic content; they
  are omitted.  External accounts (the wallets of the contributor and of the winner) are not tracked; the pool-held escrow lamports, the pool-held
  token balance, the platform token balance and the tokens received per contributor are tracked, since the claims quantify over them.
* Ghost specification fields, read by no operation: `refunded_lamports`
  inside a contribution record (set by `refund` to the amount returned),
  `winner_lamports` (cumulative value paid to the winner),
  `total_minted` (cumulative minted supply), `contributor_reserve`
  (the contributor share computed at distribution) and `proposal_current`
  (the pool value snapshotted when `propose_finalize` ran).
-/

namespace UnionChant

/-! ## Constants (lib.rs lines 8-20) -/

def CONTRIBUTOR_SHARE_BPS : Nat := 9400
def WINNER_SHARE_BPS : Nat := 500
def PLATFORM_SHARE_BPS : Nat := 100
def TOKEN_SUPPLY : Nat := 1000000000
def TOKEN_DECIMALS : Nat := 6
def MIN_CONFIRM_SECS : Int := 86400
def MAX_CONFIRM_SECS : Int := 604800
def DEFAULT_CONFIRM_SECS : Int := 172800

def U64LIMIT : Nat := 2 ^ 64
def U32LIMIT : Nat := 2 ^ 32
def U128LIMIT : Nat := 2 ^ 128

/-- Total token supply in base units, `TOKEN_SUPPLY * 10u64.pow(TOKEN_DECIMALS)`
(lib.rs lines 250, 329). -/
def totalTokens : Nat := TOKEN_SUPPLY * 10 ^ TOKEN_DECIMALS

/-- `total_tokens * PLATFORM_SHARE_BPS / 10000` (lib.rs line 265). -/
def platformTokens : Nat := totalTokens * PLATFORM_SHARE_BPS / 10000

/-- `total_tokens * CONTRIBUTOR_SHARE_BPS / 10000` (lib.rs lines 279, 330). -/
def contributorTokens : Nat := totalTokens * CONTRIBUTOR_SHARE_BPS / 10000

/-! ## Data model (lib.rs lines 797-876) -/

inductive PoolStatus where
  | Funding
  | Confirming
  | Distributing
  | Complete
  | Cancelled
deriving DecidableEq, Repr

/-- `ContributionRecord` (lib.rs lines 841-848); `pool`, `contributor` and
`bump` are identity plumbing and omitted.  `refunded_lamports` is a ghost
field for specification only: `refund` records there the amount it returned;
no operation ever reads it. -/
structure ContributionRecord where
  amount_lamports : Nat
  claimed : Bool
  refunded_lamports : Nat
deriving DecidableEq, Repr

/-- `ConfirmationVoteRecord` (lib.rs lines 855-863); `pool`, `contributor`
and `bump` omitted. -/
structure ConfirmationVoteRecord where
  approve : Bool
  weight : Nat
  has_voted : Bool
deriving DecidableEq, Repr

/-- One `LaunchPool` (lib.rs lines 797-816) together with its child
contribution and vote records (keyed by contributor identity) and the
pool-held balances the operations move.  `contribKeys` / `voteKeys` are the
sets of contributors whose record accounts exist on chain. -/
structure PoolState where
  target_lamports : Nat
  current_lamports : Nat
  deadline : Int
  status : PoolStatus
  confirm_deadline : Int
  confirm_duration_secs : Int
  approve_lamports : Nat
  reject_lamports : Nat
  contributor_count : Nat
  paused : Bool
  contribKeys : Finset Nat
  contribs : Nat → ContributionRecord
  voteKeys : Finset Nat
  votes : Nat → ConfirmationVoteRecord
  escrow_lamports : Nat
  winner_lamports : Nat
  total_minted : Nat
  pool_token_balance : Nat
  platform_token_balance : Nat
  contributor_reserve : Nat
  user_token_balance : Nat → Nat
  proposal_current : Nat

/-- `LaunchError` (lib.rs lines 968-1024), restricted to the variants the
modelled operations can raise, plus `Overflow` for the checked-arithmetic
failures (a Rust overflow abort / `unwrap` panic on `None`) and
`InsufficientFunds` for a lamport or token debit exceeding the held
balance. -/
inductive LaunchError where
  | InvalidTarget
  | DeadlinePassed
  | InvalidAmount
  | PoolNotFunding
  | PoolNotDistributing
  | NotConfirming
  | NoContributions
  | NoContribution
  | AlreadyClaimed
  | AlreadyVoted
  | RefundNotAvailable
  | NotApproved
  | ConfirmExpired
  | ConfirmNotExpired
  | ConfirmTooShort
  | ConfirmTooLong
  | PoolPaused
  | AlreadyPaused
  | NotPaused
  | Overflow
  | InsufficientFunds
deriving DecidableEq, Repr

/-! ## Operations -/

/-- The zeroed pool written by `create_pool` (lib.rs lines 73-90). -/
def initialPool (target_lamports : Nat) (deadline : Int) (confirm_secs : Int) :
    PoolState where
  target_lamports := target_lamports
  current_lamports := 0
  deadline := deadline
  status := PoolStatus.Funding
  confirm_deadline := 0
  confirm_duration_secs := confirm_secs
  approve_lamports := 0
  reject_lamports := 0
  contributor_count := 0
  paused := false
  contribKeys := ∅
  contribs := fun _ => ⟨0, false, 0⟩
  voteKeys := ∅
  votes := fun _ => ⟨false, 0, false⟩
  escrow_lamports := 0
  winner_lamports := 0
  total_minted := 0
  pool_token_balance := 0
  platform_token_balance := 0
  contributor_reserve := 0
  user_token_balance := fun _ => 0
  proposal_current := 0

/-- `create_pool` (lib.rs lines 54-101).  The pool-id string is omitted, so
its length check is too. -/
def create_pool (now : Int) (target_lamports : Nat) (deadline : Int)
    (confirm_duration_secs : Int) : Except LaunchError PoolState :=
  if target_lamports = 0 then .error .InvalidTarget
  else if deadline ≤ now then .error .DeadlinePassed
  else if confirm_duration_secs = 0 then
    .ok (initialPool target_lamports deadline DEFAULT_CONFIRM_SECS)
  else if confirm_duration_secs < MIN_CONFIRM_SECS then .error .ConfirmTooShort
  else if MAX_CONFIRM_SECS < confirm_duration_secs then .error .ConfirmTooLong
  else .ok (initialPool target_lamports deadline confirm_duration_secs)

/-- `contribute` (lib.rs lines 104-145).  The SOL transfer into the pool PDA
is the `escrow_lamports` increment. -/
def contribute (s : PoolState) (now : Int) (who : Nat) (amount_lamports : Nat) :
    Except LaunchError PoolState :=
  if amount_lamports = 0 then .error .InvalidAmount
  else if s.paused then .error .PoolPaused
  else if s.status ≠ PoolStatus.Funding then .error .PoolNotFunding
  else if s.deadline ≤ now then .error .DeadlinePassed
  else
    let record := s.contribs who
    if record.amount_lamports = 0 then
      if U32LIMIT ≤ s.contributor_count + 1 then .error .Overflow
      else if U64LIMIT ≤ record.amount_lamports + amount_lamports then .error .Overflow
      else if U64LIMIT ≤ s.current_lamports + amount_lamports then .error .Overflow
      else .ok { s with
        contributor_count := s.contributor_count + 1
        contribKeys := insert who s.contribKeys
        contribs := Function.update s.contribs who
          { record with amount_lamports := record.amount_lamports + amount_lamports }
        current_lamports := s.current_lamports + amount_lamports
        escrow_lamports := s.escrow_lamports + amount_lamports }
    else
      if U64LIMIT ≤ record.amount_lamports + amount_lamports then .error .Overflow
      else if U64LIMIT ≤ s.current_lamports + amount_lamports then .error .Overflow
      else .ok { s with
        contribs := Function.update s.contribs who
          { record with amount_lamports := record.amount_lamports + amount_lamports }
        current_lamports := s.current_lamports + amount_lamports
        escrow_lamports := s.escrow_lamports + amount_lamports }

/-- `propose_finalize` (lib.rs lines 154-184).  The winner, token mint and
merkle root are identity data and omitted; `proposal_current` is the ghost
snapshot of the pool value at this moment. -/
def propose_finalize (s : PoolState) (now : Int) : Except LaunchError PoolState :=
  if s.paused then .error .PoolPaused
  else if s.status ≠ PoolStatus.Funding then .error .PoolNotFunding
  else if s.current_lamports = 0 then .error .NoContributions
  else .ok { s with
    status := PoolStatus.Confirming
    confirm_deadline := now + s.confirm_duration_secs
    approve_lamports := 0
    reject_lamports := 0
    proposal_current := s.current_lamports }

/-- `confirm_vote` (lib.rs lines 188-223). -/
def confirm_vote (s : PoolState) (now : Int) (who : Nat) (approve : Bool) :
    Except LaunchError PoolState :=
  if s.status ≠ PoolStatus.Confirming then .error .NotConfirming
  else if s.confirm_deadline ≤ now then .error .ConfirmExpired
  else
    let record := s.contribs who
    if record.amount_lamports = 0 then .error .NoContribution
    else if (s.votes who).has_voted then .error .AlreadyVoted
    else
      let w := record.amount_lamports
      if approve then
        if U64LIMIT ≤ s.approve_lamports + w then .error .Overflow
        else .ok { s with
          votes := Function.update s.votes who ⟨approve, w, true⟩
          voteKeys := insert who s.voteKeys
          approve_lamports := s.approve_lamports + w }
      else
        if U64LIMIT ≤ s.reject_lamports + w then .error .Overflow
        else .ok { s with
          votes := Function.update s.votes who ⟨approve, w, true⟩
          voteKeys := insert who s.voteKeys
          reject_lamports := s.reject_lamports + w }

/-- `execute_distribution` (lib.rs lines 227-294): pays the winner 5% of the
pool value from escrow, mints the full supply into the pool token account,
moves the 1% platform share out, computes the 94% contributor share, and
moves to `Distributing`.  Note that `pool.current_lamports` is not
changed. -/
def execute_distribution (s : PoolState) : Except LaunchError PoolState :=
  if s.paused then .error .PoolPaused
  else if s.status ≠ PoolStatus.Confirming then .error .NotConfirming
  else if s.approve_lamports ≤ s.reject_lamports then .error .NotApproved
  else if U64LIMIT ≤ s.current_lamports * WINNER_SHARE_BPS then .error .Overflow
  else
    let winner_sol := s.current_lamports * WINNER_SHARE_BPS / 10000
    if s.escrow_lamports < winner_sol then .error .InsufficientFunds
    else if U64LIMIT ≤ totalTokens then .error .Overflow
    else if U64LIMIT ≤ totalTokens * PLATFORM_SHARE_BPS then .error .Overflow
    else if U64LIMIT ≤ totalTokens * CONTRIBUTOR_SHARE_BPS then .error .Overflow
    else .ok { s with
      status := PoolStatus.Distributing
      escrow_lamports := s.escrow_lamports - winner_sol
      winner_lamports := s.winner_lamports + winner_sol
      total_minted := s.total_minted + totalTokens
      pool_token_balance := s.pool_token_balance + (totalTokens - platformTokens)
      platform_token_balance := s.platform_token_balance + platformTokens
      contributor_reserve := contributorTokens }

/-- `expire_confirmation` (lib.rs lines 297-314): cancels on a non-majority,
otherwise does nothing at all. -/
def expire_confirmation (s : PoolState) (now : Int) : Except LaunchError PoolState :=
  if s.status ≠ PoolStatus.Confirming then .error .NotConfirming
  else if now < s.confirm_deadline then .error .ConfirmNotExpired
  else if s.approve_lamports ≤ s.reject_lamports then
    .ok { s with status := PoolStatus.Cancelled }
  else .ok s

/-- `claim` (lib.rs lines 317-365).  `user_tokens` is
`((contributor_tokens as u128).checked_mul(amount).unwrap()
  .checked_div(current_lamports).unwrap()) as u64`:
`checked_mul` is `None` on a u128 overflow, `checked_div` is `None` on a
zero divisor — both `unwrap` panics, modelled as `Overflow` — and the final
`as u64` is a modular cast. -/
def claim (s : PoolState) (who : Nat) : Except LaunchError PoolState :=
  if s.paused then .error .PoolPaused
  else if ¬ (s.status = PoolStatus.Distributing ∨ s.status = PoolStatus.Complete) then
    .error .PoolNotDistributing
  else
    let record := s.contribs who
    if record.claimed then .error .AlreadyClaimed
    else if record.amount_lamports = 0 then .error .NoContribution
    else if U128LIMIT ≤ contributorTokens * record.amount_lamports then .error .Overflow
    else if s.current_lamports = 0 then .error .Overflow
    else
      let user_tokens := contributorTokens * record.amount_lamports / s.current_lamports % U64LIMIT
      if s.pool_token_balance < user_tokens then .error .InsufficientFunds
      else .ok { s with
        pool_token_balance := s.pool_token_balance - user_tokens
        user_token_balance := Function.update s.user_token_balance who
          (s.user_token_balance who + user_tokens)
        contribs := Function.update s.contribs who { record with claimed := true } }

/-- `refund` (lib.rs lines 369-399).  No pause check.  The ghost field
`refunded_lamports` records the returned amount. -/
def refund (s : PoolState) (now : Int) (who : Nat) : Except LaunchError PoolState :=
  if ¬ (s.status = PoolStatus.Cancelled ∨
        (s.status = PoolStatus.Funding ∧ s.deadline < now)) then
    .error .RefundNotAvailable
  else
    let record := s.contribs who
    if record.claimed then .error .AlreadyClaimed
    else if record.amount_lamports = 0 then .error .NoContribution
    else
      let refund_amount := record.amount_lamports
      if s.escrow_lamports < refund_amount then .error .InsufficientFunds
      else if s.current_lamports < refund_amount then .error .Overflow
      else .ok { s with
        escrow_lamports := s.escrow_lamports - refund_amount
        contribs := Function.update s.contribs who
          { record with claimed := true, refunded_lamports := refund_amount }
        current_lamports := s.current_lamports - refund_amount }

/-- `pause_pool` (lib.rs lines 407-414). -/
def pause_pool (s : PoolState) : Except LaunchError PoolState :=
  if s.paused then .error .AlreadyPaused
  else .ok { s with paused := true }

/-- `unpause_pool` (lib.rs lines 417-424). -/
def unpause_pool (s : PoolState) : Except LaunchError PoolState :=
  if ¬ s.paused then .error .NotPaused
  else .ok { s with paused := false }

/-- `cancel_pool` (lib.rs lines 427-437). -/
def cancel_pool (s : PoolState) : Except LaunchError PoolState :=
  if ¬ (s.status = PoolStatus.Funding ∨ s.status = PoolStatus.Confirming) then
    .error .PoolNotFunding
  else .ok { s with status := PoolStatus.Cancelled }

/-- `complete_pool` (lib.rs lines 445-478); the mint-authority revocation is
an external token-program effect and not tracked. -/
def complete_pool (s : PoolState) : Except LaunchError PoolState :=
  if s.status ≠ PoolStatus.Distributing then .error .PoolNotDistributing
  else .ok { s with status := PoolStatus.Complete }

/-! ## Traces and reachability -/

/-- One instruction against a fixed pool.  `now` is the on-chain clock value
at execution time; `who` is the contributor identity signing. -/
inductive Op where
  | contribute (now : Int) (who : Nat) (amount : Nat)
  | proposeFinalize (now : Int)
  | confirmVote (now : Int) (who : Nat) (approve : Bool)
  | executeDistribution
  | expireConfirmation (now : Int)
  | claim (who : Nat)
  | refund (now : Int) (who : Nat)
  | pausePool
  | unpausePool
  | cancelPool
  | completePool

def step (s : PoolState) : Op → Except LaunchError PoolState
  | Op.contribute now who amount => contribute s now who amount
  | Op.proposeFinalize now => propose_finalize s now
  | Op.confirmVote now who approve => confirm_vote s now who approve
  | Op.executeDistribution => execute_distribution s
  | Op.expireConfirmation now => expire_confirmation s now
  | Op.claim who => claim s who
  | Op.refund now who => refund s now who
  | Op.pausePool => pause_pool s
  | Op.unpausePool => unpause_pool s
  | Op.cancelPool => cancel_pool s
  | Op.completePool => complete_pool s

/-- A failing instruction is atomic: it leaves the ledger unchanged. -/
def applyOp (s : PoolState) (op : Op) : PoolState :=
  match step s op with
  | .ok s' => s'
  | .error _ => s

def run (s : PoolState) (ops : List Op) : PoolState := ops.foldl applyOp s

/-- Pool states produced by `create_pool` followed by any sequence of
successful instructions. -/
inductive Reachable : PoolState → Prop where
  | create (now : Int) (target : Nat) (deadline confirm_duration : Int) (s : PoolState) :
      create_pool now target deadline confirm_duration = .ok s → Reachable s
  | step (s : PoolState) (op : Op) (s' : PoolState) :
      Reachable s → step s op = .ok s' → Reachable s'

/-! ## Derived quantities -/

/-- Sum of all contribution-record amounts (total ever contributed, since
`refund` does not clear `amount_lamports`). -/
def amtSum (s : PoolState) : Nat :=
  s.contribKeys.sum fun k => (s.contribs k).amount_lamports

/-- Total value returned by refunds (ghost). -/
def refundedSum (s : PoolState) : Nat :=
  s.contribKeys.sum fun k => (s.contribs k).refunded_lamports

/-- Sum of the snapshot weights of the contributors who have voted. -/
def votedWeightSum (s : PoolState) : Nat :=
  s.voteKeys.sum fun k => (s.votes k).weight

/-- Sum of the live — neither refunded nor claimed — contributions. -/
def liveSum (s : PoolState) : Nat :=
  (s.contribKeys.filter fun k =>
    (s.contribs k).claimed = false ∧ (s.contribs k).refunded_lamports = 0).sum
    fun k => (s.contribs k).amount_lamports

/-- The token entitlement of contributor `k`:
`floor(contributor_tokens * amount / current_lamports)`. -/
def entitled (s : PoolState) (k : Nat) : Nat :=
  contributorTokens * (s.contribs k).amount_lamports / s.current_lamports

/-- Contributors whose record was closed by `claim` (claimed but not
refunded). -/
def claimedSet (s : PoolState) : Finset Nat :=
  s.contribKeys.filter fun k =>
    (s.contribs k).claimed = true ∧ (s.contribs k).refunded_lamports = 0

/-! ## Sum helper lemmas -/

lemma sum_update_val {β : Type} (K : Finset Nat) (k : Nat) (hk : k ∈ K)
    (g : Nat → β) (r : β) (v : β → Nat) :
    (K.sum fun x => v (Function.update g k r x)) + v (g k)
      = (K.sum fun x => v (g x)) + v r := by
  classical
  have h1 := Finset.add_sum_erase K (fun x => v (Function.update g k r x)) hk
  have h2 := Finset.add_sum_erase K (fun x => v (g x)) hk
  beta_reduce at h1 h2
  rw [Function.update_same] at h1
  have h3 : ((K.erase k).sum fun x => v (Function.update g k r x))
      = (K.erase k).sum fun x => v (g x) := by
    refine Finset.sum_congr rfl fun x hx => ?_
    rw [Function.update_noteq (Finset.mem_erase.mp hx).1]
  rw [h3] at h1
  omega

lemma sum_update_not_mem {β : Type} (K : Finset Nat) (k : Nat) (hk : k ∉ K)
    (g : Nat → β) (r : β) (v : β → Nat) :
    (K.sum fun x => v (Function.update g k r x)) = K.sum fun x => v (g x) := by
  refine Finset.sum_congr rfl fun x hx => ?_
  rw [Function.update_noteq]
  rintro rfl; exact hk hx

lemma sum_update_congr {β : Type} (K : Finset Nat) (k : Nat)
    (g : Nat → β) (r : β) (v : β → Nat) (h : v r = v (g k)) :
    (K.sum fun x => v (Function.update g k r x)) = K.sum fun x => v (g x) := by
  refine Finset.sum_congr rfl fun x _ => ?_
  rw [Function.update_apply]
  split
  next heq => rw [h, heq]
  next => rfl

lemma sum_div_le_div_sum (K : Finset Nat) (f : Nat → Nat) (V : Nat) :
    (K.sum fun k => f k / V) ≤ K.sum f / V := by
  classical
  induction K using Finset.induction_on with
  | empty => simp
  | insert hk ih =>
    rw [Finset.sum_insert hk, Finset.sum_insert hk]
    calc _ ≤ _ / V + Finset.sum _ f / V := Nat.add_le_add_left ih _
    _ ≤ _ := Nat.add_div_le_add_div _ _ _

lemma sum_mul_div_le (K : Finset Nat) (f : Nat → Nat) (C V : Nat)
    (hsum : K.sum f ≤ V) : (K.sum fun k => C * f k / V) ≤ C := by
  rcases Nat.eq_zero_or_pos V with hV | hV
  · subst hV; simp [Nat.div_zero]
  · calc (K.sum fun k => C * f k / V) ≤ (K.sum fun k => C * f k) / V :=
        sum_div_le_div_sum K _ V
    _ = C * K.sum f / V := by rw [← Finset.mul_sum]
    _ ≤ C * V / V := Nat.div_le_div_right (Nat.mul_le_mul_left C hsum)
    _ = C := Nat.mul_div_cancel C hV

lemma fsum_congr (K : Finset Nat) (f g : Nat → Nat) (hf : ∀ k ∈ K, f k = g k) :
    K.sum f = K.sum g :=
  Finset.sum_congr rfl hf

lemma fsum_insert (K : Finset Nat) (k0 : Nat) (f g : Nat → Nat) (hw : k0 ∉ K)
    (hf : ∀ k ∈ K, f k = g k) : (insert k0 K).sum f = f k0 + K.sum g := by
  rw [Finset.sum_insert hw]
  exact congrArg (f k0 + ·) (fsum_congr K f g hf)

lemma fsum_mem (K : Finset Nat) (k0 : Nat) (f g : Nat → Nat) (hw : k0 ∈ K)
    (hf : ∀ k ∈ K, k ≠ k0 → f k = g k) : K.sum f + g k0 = K.sum g + f k0 := by
  have h3 : Finset.sum (K.erase k0) (fun x => f x) = Finset.sum (K.erase k0) (fun x => g x) :=
    Finset.sum_congr rfl fun x hx =>
      hf x (Finset.mem_of_mem_erase hx) (Finset.mem_erase.mp hx).1
  rw [← Finset.add_sum_erase K f hw, ← Finset.add_sum_erase K g hw, h3]
  omega

/-! ## The reachable-state invariant -/

/-- Every record closed as `claimed` was closed by `refund` (holds in
every status except `Distributing`/`Complete`, where `claim` also closes
records). -/
def ClaimedIsRefunded (s : PoolState) : Prop :=
  ∀ k, (s.contribs k).claimed = true → 0 < (s.contribs k).refunded_lamports

/-- Before distribution: nothing paid to the winner, nothing minted, no
token balances, no tokens received, and claimed records are refunds. -/
def PreDist (s : PoolState) : Prop :=
  s.winner_lamports = 0 ∧ s.total_minted = 0 ∧ s.pool_token_balance = 0 ∧
  s.platform_token_balance = 0 ∧ (∀ k, s.user_token_balance k = 0) ∧
  ClaimedIsRefunded s

/-- After distribution: the full supply was minted once, the platform share
left, and the pool token balance is the retained share minus the
entitlements already claimed. -/
def DistInv (s : PoolState) : Prop :=
  0 < s.current_lamports ∧ s.total_minted = totalTokens ∧
  s.platform_token_balance = platformTokens ∧
  s.contributor_reserve = contributorTokens ∧
  s.pool_token_balance + (claimedSet s).sum (entitled s)
    = totalTokens - platformTokens ∧
  (∀ k, k ∈ claimedSet s → s.user_token_balance k = entitled s k) ∧
  (∀ k, k ∉ claimedSet s → s.user_token_balance k = 0)

/-- The inductive invariant of the launch-pool ledger. -/
structure Inv (s : PoolState) : Prop where
  offC : ∀ k, k ∉ s.contribKeys → s.contribs k = ⟨0, false, 0⟩
  posC : ∀ k, k ∈ s.contribKeys → 0 < (s.contribs k).amount_lamports
  bndC : ∀ k, (s.contribs k).amount_lamports < U64LIMIT
  refLe : ∀ k, (s.contribs k).refunded_lamports ≤ (s.contribs k).amount_lamports
  refC : ∀ k, 0 < (s.contribs k).refunded_lamports → (s.contribs k).claimed = true
  offV : ∀ k, k ∉ s.voteKeys → (s.votes k).has_voted = false
  onV : ∀ k, k ∈ s.voteKeys → (s.votes k).has_voted = true ∧
    (s.votes k).weight = (s.contribs k).amount_lamports
  subV : s.voteKeys ⊆ s.contribKeys
  tally : s.approve_lamports + s.reject_lamports = votedWeightSum s
  conserv : s.current_lamports + refundedSum s = amtSum s
  escrowEq : s.escrow_lamports + s.winner_lamports = s.current_lamports
  pFund : s.status = PoolStatus.Funding →
    s.voteKeys = ∅ ∧ s.approve_lamports = 0 ∧ s.reject_lamports = 0 ∧ PreDist s
  pConf : s.status = PoolStatus.Confirming →
    PreDist s ∧ s.current_lamports = s.proposal_current ∧ 0 < s.current_lamports
  pCanc : s.status = PoolStatus.Cancelled →
    s.winner_lamports = 0 ∧ ClaimedIsRefunded s
  pDist : s.status = PoolStatus.Distributing ∨ s.status = PoolStatus.Complete →
    DistInv s

/-! ## Invariant preservation, easy operations -/

lemma u64_pos : 0 < U64LIMIT := by decide

lemma inv_initial (target : Nat) (deadline confirm_secs : Int) :
    Inv (initialPool target deadline confirm_secs) := by
  constructor <;>
    simp [initialPool, PreDist, ClaimedIsRefunded, votedWeightSum, refundedSum,
      amtSum, u64_pos]

lemma inv_create (now : Int) (target : Nat) (deadline dur : Int) (s : PoolState)
    (h : create_pool now target deadline dur = .ok s) : Inv s := by
  unfold create_pool at h
  repeat' split at h
  all_goals first
    | exact Except.noConfusion h
    | (injection h with h; subst h; exact inv_initial ..)

lemma inv_pause (s s' : PoolState) (h : pause_pool s = .ok s') (hs : Inv s) : Inv s' := by
  unfold pause_pool at h
  split at h
  · exact Except.noConfusion h
  · injection h with h; subst h
    obtain ⟨h1, h2, h3, h4, h5, h6, h7, h8, h9, h10, h11, h12, h13, h14, h15⟩ := hs
    exact ⟨h1, h2, h3, h4, h5, h6, h7, h8, h9, h10, h11, h12, h13, h14, h15⟩

lemma inv_unpause (s s' : PoolState) (h : unpause_pool s = .ok s') (hs : Inv s) : Inv s' := by
  unfold unpause_pool at h
  split at h
  · exact Except.noConfusion h
  · injection h with h; subst h
    obtain ⟨h1, h2, h3, h4, h5, h6, h7, h8, h9, h10, h11, h12, h13, h14, h15⟩ := hs
    exact ⟨h1, h2, h3, h4, h5, h6, h7, h8, h9, h10, h11, h12, h13, h14, h15⟩

lemma inv_cancel (s s' : PoolState) (h : cancel_pool s = .ok s') (hs : Inv s) : Inv s' := by
  unfold cancel_pool at h
  split at h
  next hst =>
    exact Except.noConfusion h
  next hst =>
    injection h with h; subst h
    obtain ⟨h1, h2, h3, h4, h5, h6, h7, h8, h9, h10, h11, h12, h13, h14, h15⟩ := hs
    rw [not_not] at hst
    refine ⟨h1, h2, h3, h4, h5, h6, h7, h8, h9, h10, h11, by simp, by simp, ?_, by simp⟩
    intro _
    rcases hst with hst | hst
    · obtain ⟨-, -, -, hP⟩ := h12 hst
      exact ⟨hP.1, hP.2.2.2.2.2⟩
    · obtain ⟨hP, -, -⟩ := h13 hst
      exact ⟨hP.1, hP.2.2.2.2.2⟩

lemma inv_complete (s s' : PoolState) (h : complete_pool s = .ok s') (hs : Inv s) : Inv s' := by
  unfold complete_pool at h
  split at h
  next hst => exact Except.noConfusion h
  next hst =>
    injection h with h; subst h
    rw [not_not] at hst
    obtain ⟨h1, h2, h3, h4, h5, h6, h7, h8, h9, h10, h11, h12, h13, h14, h15⟩ := hs
    refine ⟨h1, h2, h3, h4, h5, h6, h7, h8, h9, h10, h11, by simp, by simp, by simp, ?_⟩
    intro _
    exact h15 (Or.inl hst)

lemma inv_expire (s s' : PoolState) (now : Int) (h : expire_confirmation s now = .ok s')
    (hs : Inv s) : Inv s' := by
  unfold expire_confirmation at h
  split at h
  next => exact Except.noConfusion h
  split at h
  next => exact Except.noConfusion h
  case _ hst _ =>
    rw [not_not] at hst
    split at h
    · injection h with h; subst h
      obtain ⟨h1, h2, h3, h4, h5, h6, h7, h8, h9, h10, h11, h12, h13, h14, h15⟩ := hs
      refine ⟨h1, h2, h3, h4, h5, h6, h7, h8, h9, h10, h11, by simp, by simp, ?_, by simp⟩
      intro _
      obtain ⟨hP, -, -⟩ := h13 hst
      exact ⟨hP.1, hP.2.2.2.2.2⟩
    · injection h with h; subst h; exact hs

lemma inv_propose (s s' : PoolState) (now : Int) (h : propose_finalize s now = .ok s')
    (hs : Inv s) : Inv s' := by
  unfold propose_finalize at h
  split at h
  next => exact Except.noConfusion h
  split at h
  next => exact Except.noConfusion h
  split at h
  next => exact Except.noConfusion h
  case _ hp hst hcur =>
    rw [not_not] at hst
    injection h with h; subst h
    obtain ⟨h1, h2, h3, h4, h5, h6, h7, h8, h9, h10, h11, h12, h13, h14, h15⟩ := hs
    obtain ⟨hvk, -, -, hP⟩ := h12 hst
    refine ⟨h1, h2, h3, h4, h5, h6, h7, h8, ?_, h10, h11, by simp, ?_, by simp, by simp⟩
    · show 0 + 0 = votedWeightSum _
      simp [votedWeightSum, hvk]
    · intro _
      exact ⟨hP, rfl, Nat.pos_of_ne_zero hcur⟩

lemma mem_contribKeys (s : PoolState) (hs : Inv s) (who : Nat)
    (h : (s.contribs who).amount_lamports ≠ 0) : who ∈ s.contribKeys := by
  by_contra hmem
  rw [hs.offC who hmem] at h
  exact h rfl

lemma inv_contribute (s s' : PoolState) (now : Int) (who a : Nat)
    (h : contribute s now who a = .ok s') (hs : Inv s) : Inv s' := by
  unfold contribute at h
  split at h
  next => exact Except.noConfusion h
  split at h
  next => exact Except.noConfusion h
  split at h
  next => exact Except.noConfusion h
  split at h
  next => exact Except.noConfusion h
  case _ ha hp hst hd =>
  rw [not_not] at hst
  obtain ⟨hvk, hap, hrj, hPD⟩ := hs.pFund hst
  simp only [] at h
  split at h
  case isTrue hfresh =>
    split at h
    next => exact Except.noConfusion h
    split at h
    next => exact Except.noConfusion h
    split at h
    next => exact Except.noConfusion h
    case _ hcnt hrec hcur =>
    injection h with h
    have hwho : who ∉ s.contribKeys := by
      intro hmem
      have := hs.posC who hmem
      omega
    have hrec0 : s.contribs who = ⟨0, false, 0⟩ := hs.offC who hwho
    have e1 : s'.current_lamports = s.current_lamports + a := by rw [← h]
    have e2 : s'.contribKeys = insert who s.contribKeys := by rw [← h]
    have e3 : s'.escrow_lamports = s.escrow_lamports + a := by rw [← h]
    have e4 : s'.status = s.status := by rw [← h]
    have e5 : s'.voteKeys = s.voteKeys := by rw [← h]
    have e6 : s'.votes = s.votes := by rw [← h]
    have e7 : s'.approve_lamports = s.approve_lamports := by rw [← h]
    have e8 : s'.reject_lamports = s.reject_lamports := by rw [← h]
    have e9 : s'.winner_lamports = s.winner_lamports := by rw [← h]
    have e10 : s'.total_minted = s.total_minted := by rw [← h]
    have e11 : s'.pool_token_balance = s.pool_token_balance := by rw [← h]
    have e12 : s'.platform_token_balance = s.platform_token_balance := by rw [← h]
    have e13 : s'.user_token_balance = s.user_token_balance := by rw [← h]
    have e14 : ∀ k, k ≠ who → s'.contribs k = s.contribs k := by
      intro k hk
      rw [← h]
      exact Function.update_noteq hk _ _
    have e15a : (s'.contribs who).amount_lamports = (s.contribs who).amount_lamports + a := by
      rw [← h]
      simp [Function.update_same]
    have e15b : (s'.contribs who).claimed = (s.contribs who).claimed := by
      rw [← h]
      simp [Function.update_same]
    have e15c : (s'.contribs who).refunded_lamports = (s.contribs who).refunded_lamports := by
      rw [← h]
      simp [Function.update_same]
    have hRS : refundedSum s' = refundedSum s := by
      unfold refundedSum
      rw [e2, fsum_insert s.contribKeys who (fun k => (s'.contribs k).refunded_lamports)
        (fun k => (s.contribs k).refunded_lamports) hwho
        (fun k hk => congrArg ContributionRecord.refunded_lamports
          (e14 k (fun hkw => hwho (hkw ▸ hk))))]
      show (s'.contribs who).refunded_lamports + _ = _
      rw [e15c, hrec0]
      simp
    have hAS : amtSum s' = a + amtSum s := by
      unfold amtSum
      rw [e2, fsum_insert s.contribKeys who (fun k => (s'.contribs k).amount_lamports)
        (fun k => (s.contribs k).amount_lamports) hwho
        (fun k hk => congrArg ContributionRecord.amount_lamports
          (e14 k (fun hkw => hwho (hkw ▸ hk))))]
      show (s'.contribs who).amount_lamports + _ = _
      rw [e15a, hrec0]
      simp
    refine ⟨?_, ?_, ?_, ?_, ?_, ?_, ?_, ?_, ?_, ?_, ?_, ?_, ?_, ?_, ?_⟩
    · intro k hk
      rw [e2] at hk
      simp only [Finset.mem_insert, not_or] at hk
      rw [e14 k hk.1]
      exact hs.offC k hk.2
    · intro k hk
      rw [e2] at hk
      rcases Finset.mem_insert.mp hk with rfl | hk2
      · rw [e15a]; omega
      · rw [e14 k (fun hkw => hwho (hkw ▸ hk2))]
        exact hs.posC k hk2
    · intro k
      rcases eq_or_ne k who with rfl | hkw
      · rw [e15a]; omega
      · rw [e14 k hkw]; exact hs.bndC k
    · intro k
      rcases eq_or_ne k who with rfl | hkw
      · rw [e15a, e15c]
        have := hs.refLe k
        omega
      · rw [e14 k hkw]; exact hs.refLe k
    · intro k
      rcases eq_or_ne k who with rfl | hkw
      · rw [e15b, e15c]; exact hs.refC k
      · rw [e14 k hkw]; exact hs.refC k
    · intro k hk
      rw [e5] at hk
      rw [e6]
      exact hs.offV k hk
    · intro k hk
      rw [e5, hvk] at hk
      exact absurd hk (Finset.not_mem_empty k)
    · rw [e5, e2]
      exact hs.subV.trans (Finset.subset_insert who s.contribKeys)
    · rw [e7, e8]
      unfold votedWeightSum
      rw [e5, e6]
      exact hs.tally
    · rw [e1, hRS, hAS]
      have := hs.conserv
      omega
    · rw [e3, e9, e1]
      have := hs.escrowEq
      omega
    · intro _
      refine ⟨by rw [e5]; exact hvk, by rw [e7]; exact hap, by rw [e8]; exact hrj,
        by rw [e9]; exact hPD.1, by rw [e10]; exact hPD.2.1, by rw [e11]; exact hPD.2.2.1,
        by rw [e12]; exact hPD.2.2.2.1, by rw [e13]; exact hPD.2.2.2.2.1, ?_⟩
      intro k hcl
      rcases eq_or_ne k who with rfl | hkw
      · rw [e15b] at hcl
        rw [e15c]
        exact hPD.2.2.2.2.2 k hcl
      · rw [e14 k hkw] at hcl ⊢
        exact hPD.2.2.2.2.2 k hcl
    · intro hcf
      rw [e4, hst] at hcf
      exact absurd hcf (by simp)
    · intro hcf
      rw [e4, hst] at hcf
      exact absurd hcf (by simp)
    · intro hcf
      rcases hcf with hcf | hcf <;> rw [e4, hst] at hcf <;> exact absurd hcf (by simp)
  case isFalse hfresh =>
    split at h
    next => exact Except.noConfusion h
    split at h
    next => exact Except.noConfusion h
    case _ hrec hcur =>
    injection h with h
    have hwho : who ∈ s.contribKeys := mem_contribKeys s hs who hfresh
    have e1 : s'.current_lamports = s.current_lamports + a := by rw [← h]
    have e2 : s'.contribKeys = s.contribKeys := by rw [← h]
    have e3 : s'.escrow_lamports = s.escrow_lamports + a := by rw [← h]
    have e4 : s'.status = s.status := by rw [← h]
    have e5 : s'.voteKeys = s.voteKeys := by rw [← h]
    have e6 : s'.votes = s.votes := by rw [← h]
    have e7 : s'.approve_lamports = s.approve_lamports := by rw [← h]
    have e8 : s'.reject_lamports = s.reject_lamports := by rw [← h]
    have e9 : s'.winner_lamports = s.winner_lamports := by rw [← h]
    have e10 : s'.total_minted = s.total_minted := by rw [← h]
    have e11 : s'.pool_token_balance = s.pool_token_balance := by rw [← h]
    have e12 : s'.platform_token_balance = s.platform_token_balance := by rw [← h]
    have e13 : s'.user_token_balance = s.user_token_balance := by rw [← h]
    have e14 : ∀ k, k ≠ who → s'.contribs k = s.contribs k := by
      intro k hk
      rw [← h]
      exact Function.update_noteq hk _ _
    have e15a : (s'.contribs who).amount_lamports = (s.contribs who).amount_lamports + a := by
      rw [← h]
      simp [Function.update_same]
    have e15b : (s'.contribs who).claimed = (s.contribs who).claimed := by
      rw [← h]
      simp [Function.update_same]
    have e15c : (s'.contribs who).refunded_lamports = (s.contribs who).refunded_lamports := by
      rw [← h]
      simp [Function.update_same]
    have hRS : refundedSum s' = refundedSum s := by
      unfold refundedSum
      rw [e2]
      refine fsum_congr _ _ _ fun k hk => ?_
      rcases eq_or_ne k who with rfl | hkw
      · exact e15c
      · exact congrArg ContributionRecord.refunded_lamports (e14 k hkw)
    have hAS := fsum_mem s.contribKeys who
      (fun k => (s'.contribs k).amount_lamports)
      (fun k => (s.contribs k).amount_lamports) hwho
      (fun k _ hkw => congrArg ContributionRecord.amount_lamports (e14 k hkw))
    beta_reduce at hAS
    refine ⟨?_, ?_, ?_, ?_, ?_, ?_, ?_, ?_, ?_, ?_, ?_, ?_, ?_, ?_, ?_⟩
    · intro k hk
      rw [e2] at hk
      rw [e14 k (fun hkw => hk (hkw ▸ hwho))]
      exact hs.offC k hk
    · intro k hk
      rw [e2] at hk
      rcases eq_or_ne k who with rfl | hkw
      · rw [e15a]; omega
      · rw [e14 k hkw]; exact hs.posC k hk
    · intro k
      rcases eq_or_ne k who with rfl | hkw
      · rw [e15a]; omega
      · rw [e14 k hkw]; exact hs.bndC k
    · intro k
      rcases eq_or_ne k who with rfl | hkw
      · rw [e15a, e15c]
        have := hs.refLe k
        omega
      · rw [e14 k hkw]; exact hs.refLe k
    · intro k
      rcases eq_or_ne k who with rfl | hkw
      · rw [e15b, e15c]; exact hs.refC k
      · rw [e14 k hkw]; exact hs.refC k
    · intro k hk
      rw [e5] at hk
      rw [e6]
      exact hs.offV k hk
    · intro k hk
      rw [e5, hvk] at hk
      exact absurd hk (Finset.not_mem_empty k)
    · rw [e5, e2]
      exact hs.subV
    · rw [e7, e8]
      unfold votedWeightSum
      rw [e5, e6]
      exact hs.tally
    · show s'.current_lamports + refundedSum s' = amtSum s'
      unfold amtSum
      rw [e1, e2, hRS]
      have hc := hs.conserv
      unfold amtSum at hc
      rw [e15a] at hAS
      omega
    · rw [e3, e9, e1]
      have := hs.escrowEq
      omega
    · intro _
      refine ⟨by rw [e5]; exact hvk, by rw [e7]; exact hap, by rw [e8]; exact hrj,
        by rw [e9]; exact hPD.1, by rw [e10]; exact hPD.2.1, by rw [e11]; exact hPD.2.2.1,
        by rw [e12]; exact hPD.2.2.2.1, by rw [e13]; exact hPD.2.2.2.2.1, ?_⟩
      intro k hcl
      rcases eq_or_ne k who with rfl | hkw
      · rw [e15b] at hcl
        rw [e15c]
        exact hPD.2.2.2.2.2 k hcl
      · rw [e14 k hkw] at hcl ⊢
        exact hPD.2.2.2.2.2 k hcl
    · intro hcf
      rw [e4, hst] at hcf
      exact absurd hcf (by simp)
    · intro hcf
      rw [e4, hst] at hcf
      exact absurd hcf (by simp)
    · intro hcf
      rcases hcf with hcf | hcf <;> rw [e4, hst] at hcf <;> exact absurd hcf (by simp)

lemma inv_confirm_vote (s s' : PoolState) (now : Int) (who : Nat) (ap : Bool)
    (h : confirm_vote s now who ap = .ok s') (hs : Inv s) : Inv s' := by
  unfold confirm_vote at h
  split at h
  next => exact Except.noConfusion h
  split at h
  next => exact Except.noConfusion h
  case _ hst hdl =>
  rw [not_not] at hst
  obtain ⟨hPD, hpc, hc0⟩ := hs.pConf hst
  simp only [] at h
  split at h
  next => exact Except.noConfusion h
  split at h
  next => exact Except.noConfusion h
  case _ hamt hvtd =>
  have hwc : who ∈ s.contribKeys := mem_contribKeys s hs who hamt
  have hwv : who ∉ s.voteKeys := by
    intro hmem
    exact hvtd (hs.onV who hmem).1
  split at h <;>
  · split at h
    next => exact Except.noConfusion h
    case _ hov =>
    injection h with h
    have ekeys : s'.contribKeys = s.contribKeys := by rw [← h]
    have ec : s'.contribs = s.contribs := by rw [← h]
    have ecur : s'.current_lamports = s.current_lamports := by rw [← h]
    have ees : s'.escrow_lamports = s.escrow_lamports := by rw [← h]
    have est : s'.status = s.status := by rw [← h]
    have evk : s'.voteKeys = insert who s.voteKeys := by rw [← h]
    have ewin : s'.winner_lamports = s.winner_lamports := by rw [← h]
    have emin : s'.total_minted = s.total_minted := by rw [← h]
    have epool : s'.pool_token_balance = s.pool_token_balance := by rw [← h]
    have eplat : s'.platform_token_balance = s.platform_token_balance := by rw [← h]
    have euser : s'.user_token_balance = s.user_token_balance := by rw [← h]
    have eprop : s'.proposal_current = s.proposal_current := by rw [← h]
    have evo : ∀ k, k ≠ who → s'.votes k = s.votes k := by
      intro k hk
      rw [← h]
      exact Function.update_noteq hk _ _
    have eW : (s'.votes who).weight = (s.contribs who).amount_lamports := by
      rw [← h]
      simp [Function.update_same]
    have eH : (s'.votes who).has_voted = true := by
      rw [← h]
      simp [Function.update_same]
    have etal : s'.approve_lamports + s'.reject_lamports
        = (s.approve_lamports + s.reject_lamports) + (s.contribs who).amount_lamports := by
      rw [← h]
      simp only []
      omega
    have hVS : votedWeightSum s' = (s.contribs who).amount_lamports + votedWeightSum s := by
      unfold votedWeightSum
      rw [evk, fsum_insert s.voteKeys who (fun k => (s'.votes k).weight)
        (fun k => (s.votes k).weight) hwv
        (fun k hk => congrArg ConfirmationVoteRecord.weight
          (evo k (fun hkw => hwv (hkw ▸ hk))))]
      show (s'.votes who).weight + _ = _
      rw [eW]
    refine ⟨?_, ?_, ?_, ?_, ?_, ?_, ?_, ?_, ?_, ?_, ?_, ?_, ?_, ?_, ?_⟩
    · intro k hk
      rw [ekeys] at hk
      rw [ec]
      exact hs.offC k hk
    · intro k hk
      rw [ekeys] at hk
      rw [ec]
      exact hs.posC k hk
    · intro k
      rw [ec]
      exact hs.bndC k
    · intro k
      rw [ec]
      exact hs.refLe k
    · intro k
      rw [ec]
      exact hs.refC k
    · intro k hk
      rw [evk] at hk
      simp only [Finset.mem_insert, not_or] at hk
      rw [evo k hk.1]
      exact hs.offV k hk.2
    · intro k hk
      rw [evk] at hk
      rcases Finset.mem_insert.mp hk with rfl | hk2
      · exact ⟨eH, by rw [eW, ec]⟩
      · rw [evo k (fun hkw => hwv (hkw ▸ hk2)), ec]
        exact hs.onV k hk2
    · rw [evk, ekeys]
      exact Finset.insert_subset_iff.mpr ⟨hwc, hs.subV⟩
    · rw [etal, hVS]
      have := hs.tally
      omega
    · have hc := hs.conserv
      unfold refundedSum amtSum at hc ⊢
      rw [ecur, ekeys, ec]
      exact hc
    · rw [ees, ewin, ecur]
      exact hs.escrowEq
    · intro hf
      rw [est, hst] at hf
      exact absurd hf (by simp)
    · intro _
      refine ⟨⟨by rw [ewin]; exact hPD.1, by rw [emin]; exact hPD.2.1,
        by rw [epool]; exact hPD.2.2.1, by rw [eplat]; exact hPD.2.2.2.1,
        by rw [euser]; exact hPD.2.2.2.2.1, ?_⟩,
        by rw [ecur, eprop]; exact hpc, by rw [ecur]; exact hc0⟩
      intro k
      rw [ec]
      exact hPD.2.2.2.2.2 k
    · intro hf
      rw [est, hst] at hf
      exact absurd hf (by simp)
    · intro hf
      rcases hf with hf | hf <;> rw [est, hst] at hf <;> exact absurd hf (by simp)

/-- A live (never refunded) contribution never exceeds the current value of the pool. -/
lemma amount_le_current (s : PoolState) (hs : Inv s) (who : Nat)
    (hwc : who ∈ s.contribKeys) (hnr : (s.contribs who).refunded_lamports = 0) :
    (s.contribs who).amount_lamports ≤ s.current_lamports := by
  have h1 := Finset.add_sum_erase s.contribKeys
    (fun k => (s.contribs k).amount_lamports) hwc
  have h2 := Finset.add_sum_erase s.contribKeys
    (fun k => (s.contribs k).refunded_lamports) hwc
  beta_reduce at h1 h2
  have h3 : (Finset.sum (s.contribKeys.erase who)
        fun k => (s.contribs k).refunded_lamports)
      ≤ Finset.sum (s.contribKeys.erase who)
        fun k => (s.contribs k).amount_lamports :=
    Finset.sum_le_sum fun i _ => hs.refLe i
  have hc := hs.conserv
  unfold refundedSum amtSum at hc
  omega

/-- The never-refunded records together never exceed the current value of the pool. -/
lemma nonrefunded_sum_le (s : PoolState) (hs : Inv s) :
    ((s.contribKeys.filter fun k => (s.contribs k).refunded_lamports = 0).sum
      fun k => (s.contribs k).amount_lamports) ≤ s.current_lamports := by
  have h1 : ((s.contribKeys.filter fun k => (s.contribs k).refunded_lamports = 0).sum
        fun k => (s.contribs k).amount_lamports)
      = (s.contribKeys.filter fun k => (s.contribs k).refunded_lamports = 0).sum
        fun k => (s.contribs k).amount_lamports - (s.contribs k).refunded_lamports := by
    refine Finset.sum_congr rfl fun k hk => ?_
    have := (Finset.mem_filter.mp hk).2
    omega
  have h2 : ((s.contribKeys.filter fun k => (s.contribs k).refunded_lamports = 0).sum
        fun k => (s.contribs k).amount_lamports - (s.contribs k).refunded_lamports)
      ≤ s.contribKeys.sum
        fun k => (s.contribs k).amount_lamports - (s.contribs k).refunded_lamports :=
    Finset.sum_le_sum_of_subset (Finset.filter_subset _ _)
  have h3 := Finset.sum_tsub_distrib s.contribKeys
    (f := fun k => (s.contribs k).amount_lamports)
    (g := fun k => (s.contribs k).refunded_lamports) fun x _ => hs.refLe x
  beta_reduce at h3
  have hc := hs.conserv
  unfold refundedSum amtSum at hc
  omega

lemma inv_refund (s s' : PoolState) (now : Int) (who : Nat)
    (h : refund s now who = .ok s') (hs : Inv s) : Inv s' := by
  unfold refund at h
  split at h
  next => exact Except.noConfusion h
  case _ hstat =>
  rw [not_not] at hstat
  simp only [] at h
  split at h
  next => exact Except.noConfusion h
  split at h
  next => exact Except.noConfusion h
  split at h
  next => exact Except.noConfusion h
  split at h
  next => exact Except.noConfusion h
  case _ hcl hamt hesc hcur =>
  injection h with h
  have hwc : who ∈ s.contribKeys := mem_contribKeys s hs who hamt
  have href0 : (s.contribs who).refunded_lamports = 0 := by
    rcases Nat.eq_zero_or_pos (s.contribs who).refunded_lamports with h0 | hpos
    · exact h0
    · exact absurd (hs.refC who hpos) hcl
  have ekeys : s'.contribKeys = s.contribKeys := by rw [← h]
  have ecur : s'.current_lamports
      = s.current_lamports - (s.contribs who).amount_lamports := by rw [← h]
  have ees : s'.escrow_lamports
      = s.escrow_lamports - (s.contribs who).amount_lamports := by rw [← h]
  have est : s'.status = s.status := by rw [← h]
  have evk : s'.voteKeys = s.voteKeys := by rw [← h]
  have ev : s'.votes = s.votes := by rw [← h]
  have eap : s'.approve_lamports = s.approve_lamports := by rw [← h]
  have erj : s'.reject_lamports = s.reject_lamports := by rw [← h]
  have ewin : s'.winner_lamports = s.winner_lamports := by rw [← h]
  have emin : s'.total_minted = s.total_minted := by rw [← h]
  have epool : s'.pool_token_balance = s.pool_token_balance := by rw [← h]
  have eplat : s'.platform_token_balance = s.platform_token_balance := by rw [← h]
  have euser : s'.user_token_balance = s.user_token_balance := by rw [← h]
  have eprop : s'.proposal_current = s.proposal_current := by rw [← h]
  have e14 : ∀ k, k ≠ who → s'.contribs k = s.contribs k := by
    intro k hk
    rw [← h]
    exact Function.update_noteq hk _ _
  have e15a : (s'.contribs who).amount_lamports = (s.contribs who).amount_lamports := by
    rw [← h]
    simp [Function.update_same]
  have e15b : (s'.contribs who).claimed = true := by
    rw [← h]
    simp [Function.update_same]
  have e15c : (s'.contribs who).refunded_lamports
      = (s.contribs who).amount_lamports := by
    rw [← h]
    simp [Function.update_same]
  have hAS : amtSum s' = amtSum s := by
    unfold amtSum
    rw [ekeys]
    refine fsum_congr _ _ _ fun k hk => ?_
    rcases eq_or_ne k who with rfl | hkw
    · exact e15a
    · exact congrArg ContributionRecord.amount_lamports (e14 k hkw)
  have hRS : refundedSum s' + 0
      = refundedSum s + (s.contribs who).amount_lamports := by
    unfold refundedSum
    rw [ekeys]
    have h0 := fsum_mem s.contribKeys who
      (fun k => (s'.contribs k).refunded_lamports)
      (fun k => (s.contribs k).refunded_lamports) hwc
      (fun k _ hkw => congrArg ContributionRecord.refunded_lamports (e14 k hkw))
    beta_reduce at h0
    rw [e15c, href0] at h0
    exact h0
  refine ⟨?_, ?_, ?_, ?_, ?_, ?_, ?_, ?_, ?_, ?_, ?_, ?_, ?_, ?_, ?_⟩
  · intro k hk
    rw [ekeys] at hk
    rw [e14 k (fun hkw => hk (hkw ▸ hwc))]
    exact hs.offC k hk
  · intro k hk
    rw [ekeys] at hk
    rcases eq_or_ne k who with rfl | hkw
    · rw [e15a]
      exact hs.posC k hk
    · rw [e14 k hkw]
      exact hs.posC k hk
  · intro k
    rcases eq_or_ne k who with rfl | hkw
    · rw [e15a]
      exact hs.bndC k
    · rw [e14 k hkw]
      exact hs.bndC k
  · intro k
    rcases eq_or_ne k who with rfl | hkw
    · rw [e15a, e15c]
    · rw [e14 k hkw]
      exact hs.refLe k
  · intro k
    rcases eq_or_ne k who with rfl | hkw
    · intro _
      exact e15b
    · rw [e14 k hkw]
      exact hs.refC k
  · intro k hk
    rw [evk] at hk
    rw [ev]
    exact hs.offV k hk
  · intro k hk
    rw [evk] at hk
    rw [ev]
    rcases eq_or_ne k who with rfl | hkw
    · rw [e15a]
      exact hs.onV k hk
    · rw [e14 k hkw]
      exact hs.onV k hk
  · rw [evk, ekeys]
    exact hs.subV
  · rw [eap, erj]
    have := hs.tally
    unfold votedWeightSum at this ⊢
    rw [evk, ev]
    exact this
  · rw [ecur, hAS]
    have hc := hs.conserv
    omega
  · rw [ees, ewin, ecur]
    have := hs.escrowEq
    omega
  · intro hf
    rw [est] at hf
    obtain ⟨hvk2, hap2, hrj2, hPD⟩ := hs.pFund hf
    refine ⟨by rw [evk]; exact hvk2, by rw [eap]; exact hap2, by rw [erj]; exact hrj2,
      by rw [ewin]; exact hPD.1, by rw [emin]; exact hPD.2.1,
      by rw [epool]; exact hPD.2.2.1, by rw [eplat]; exact hPD.2.2.2.1,
      by rw [euser]; exact hPD.2.2.2.2.1, ?_⟩
    intro k hk
    rcases eq_or_ne k who with rfl | hkw
    · rw [e15c]
      exact hs.posC k hwc
    · rw [e14 k hkw] at hk ⊢
      exact hPD.2.2.2.2.2 k hk
  · intro hf
    rw [est] at hf
    rcases hstat with h1 | h1
    · rw [h1] at hf
      exact absurd hf (by simp)
    · rw [h1.1] at hf
      exact absurd hf (by simp)
  · intro hf
    rw [est] at hf
    obtain ⟨hw0, hCIR⟩ := hs.pCanc hf
    refine ⟨by rw [ewin]; exact hw0, ?_⟩
    intro k hk
    rcases eq_or_ne k who with rfl | hkw
    · rw [e15c]
      exact hs.posC k hwc
    · rw [e14 k hkw] at hk ⊢
      exact hCIR k hk
  · intro hf
    rcases hf with hf | hf <;> rw [est] at hf <;> rcases hstat with h1 | h1 <;>
      first
        | (rw [h1] at hf; exact absurd hf (by simp))
        | (rw [h1.1] at hf; exact absurd hf (by simp))

lemma inv_execute (s s' : PoolState) (h : execute_distribution s = .ok s')
    (hs : Inv s) : Inv s' := by
  unfold execute_distribution at h
  split at h
  next => exact Except.noConfusion h
  split at h
  next => exact Except.noConfusion h
  split at h
  next => exact Except.noConfusion h
  split at h
  next => exact Except.noConfusion h
  case _ hp hst happ hov =>
  rw [not_not] at hst
  obtain ⟨hPD, hpc, hc0⟩ := hs.pConf hst
  simp only [] at h
  split at h
  next => exact Except.noConfusion h
  split at h
  next => exact Except.noConfusion h
  split at h
  next => exact Except.noConfusion h
  split at h
  next => exact Except.noConfusion h
  case _ hesc _ _ _ =>
  injection h with h
  have ekeys : s'.contribKeys = s.contribKeys := by rw [← h]
  have ec : s'.contribs = s.contribs := by rw [← h]
  have ecur : s'.current_lamports = s.current_lamports := by rw [← h]
  have ees : s'.escrow_lamports
      = s.escrow_lamports - s.current_lamports * WINNER_SHARE_BPS / 10000 := by rw [← h]
  have est : s'.status = PoolStatus.Distributing := by rw [← h]
  have evk : s'.voteKeys = s.voteKeys := by rw [← h]
  have ev : s'.votes = s.votes := by rw [← h]
  have eap : s'.approve_lamports = s.approve_lamports := by rw [← h]
  have erj : s'.reject_lamports = s.reject_lamports := by rw [← h]
  have ewin : s'.winner_lamports
      = s.winner_lamports + s.current_lamports * WINNER_SHARE_BPS / 10000 := by rw [← h]
  have emin : s'.total_minted = s.total_minted + totalTokens := by rw [← h]
  have epool : s'.pool_token_balance
      = s.pool_token_balance + (totalTokens - platformTokens) := by rw [← h]
  have eplat : s'.platform_token_balance
      = s.platform_token_balance + platformTokens := by rw [← h]
  have eres : s'.contributor_reserve = contributorTokens := by rw [← h]
  have euser : s'.user_token_balance = s.user_token_balance := by rw [← h]
  have hCS : claimedSet s' = ∅ := by
    unfold claimedSet
    rw [ekeys, ec, Finset.filter_eq_empty_iff]
    rintro k - ⟨hcl, href⟩
    have := hPD.2.2.2.2.2 k hcl
    omega
  refine ⟨?_, ?_, ?_, ?_, ?_, ?_, ?_, ?_, ?_, ?_, ?_, ?_, ?_, ?_, ?_⟩
  · intro k hk
    rw [ekeys] at hk
    rw [ec]
    exact hs.offC k hk
  · intro k hk
    rw [ekeys] at hk
    rw [ec]
    exact hs.posC k hk
  · intro k
    rw [ec]
    exact hs.bndC k
  · intro k
    rw [ec]
    exact hs.refLe k
  · intro k
    rw [ec]
    exact hs.refC k
  · intro k hk
    rw [evk] at hk
    rw [ev]
    exact hs.offV k hk
  · intro k hk
    rw [evk] at hk
    rw [ev, ec]
    exact hs.onV k hk
  · rw [evk, ekeys]
    exact hs.subV
  · rw [eap, erj]
    have := hs.tally
    unfold votedWeightSum at this ⊢
    rw [evk, ev]
    exact this
  · have hc := hs.conserv
    unfold refundedSum amtSum at hc ⊢
    rw [ecur, ekeys, ec]
    exact hc
  · rw [ees, ewin, ecur]
    have h1 := hs.escrowEq
    have h2 : s.current_lamports * WINNER_SHARE_BPS / 10000 ≤ s.escrow_lamports := by
      omega
    omega
  · intro hf
    rw [est] at hf
    exact absurd hf (by simp)
  · intro hf
    rw [est] at hf
    exact absurd hf (by simp)
  · intro hf
    rw [est] at hf
    exact absurd hf (by simp)
  · intro _
    refine ⟨by rw [ecur]; exact hc0,
      by rw [emin, hPD.2.1]; omega,
      by rw [eplat, hPD.2.2.2.1]; omega,
      eres, ?_, ?_, ?_⟩
    · rw [hCS, epool, hPD.2.2.1]
      simp
    · intro k hk
      rw [hCS] at hk
      exact absurd hk (Finset.not_mem_empty k)
    · intro k _
      rw [euser]
      exact hPD.2.2.2.2.1 k

lemma inv_claim (s s' : PoolState) (who : Nat) (h : claim s who = .ok s')
    (hs : Inv s) : Inv s' := by
  unfold claim at h
  split at h
  next => exact Except.noConfusion h
  split at h
  next => exact Except.noConfusion h
  case _ hp hstat =>
  rw [not_not] at hstat
  obtain ⟨hc0, hmint, hplat, hres, hpool, huserIn, huserOut⟩ := hs.pDist hstat
  simp only [] at h
  split at h
  next => exact Except.noConfusion h
  split at h
  next => exact Except.noConfusion h
  split at h
  next => exact Except.noConfusion h
  split at h
  next => exact Except.noConfusion h
  case _ hcl hamt hml hcz =>
  split at h
  next => exact Except.noConfusion h
  case _ hpt =>
  injection h with h
  have hwc : who ∈ s.contribKeys := mem_contribKeys s hs who hamt
  have hwhoNR : (s.contribs who).refunded_lamports = 0 := by
    rcases Nat.eq_zero_or_pos (s.contribs who).refunded_lamports with h0 | hpos
    · exact h0
    · exact absurd (hs.refC who hpos) hcl
  have hwcs : who ∉ claimedSet s := by
    intro hmem
    exact hcl (Finset.mem_filter.mp hmem).2.1
  have hu0 : s.user_token_balance who = 0 := huserOut who hwcs
  have hutlt : contributorTokens * (s.contribs who).amount_lamports
      / s.current_lamports < U64LIMIT := by
    have hle := amount_le_current s hs who hwc hwhoNR
    have h1 : contributorTokens * (s.contribs who).amount_lamports
        ≤ contributorTokens * s.current_lamports := Nat.mul_le_mul_left _ hle
    have h2 : contributorTokens * (s.contribs who).amount_lamports / s.current_lamports
        ≤ contributorTokens * s.current_lamports / s.current_lamports :=
      Nat.div_le_div_right h1
    have h3 : contributorTokens * s.current_lamports / s.current_lamports
        = contributorTokens := Nat.mul_div_cancel _ (Nat.pos_of_ne_zero hcz)
    have h4 : contributorTokens < U64LIMIT := by decide
    omega
  have hut : contributorTokens * (s.contribs who).amount_lamports
      / s.current_lamports % U64LIMIT = entitled s who := by
    unfold entitled
    exact Nat.mod_eq_of_lt hutlt
  have ekeys : s'.contribKeys = s.contribKeys := by rw [← h]
  have ecur : s'.current_lamports = s.current_lamports := by rw [← h]
  have ees : s'.escrow_lamports = s.escrow_lamports := by rw [← h]
  have est : s'.status = s.status := by rw [← h]
  have evk : s'.voteKeys = s.voteKeys := by rw [← h]
  have ev : s'.votes = s.votes := by rw [← h]
  have eap : s'.approve_lamports = s.approve_lamports := by rw [← h]
  have erj : s'.reject_lamports = s.reject_lamports := by rw [← h]
  have ewin : s'.winner_lamports = s.winner_lamports := by rw [← h]
  have emin : s'.total_minted = s.total_minted := by rw [← h]
  have epool : s'.pool_token_balance = s.pool_token_balance
      - contributorTokens * (s.contribs who).amount_lamports
        / s.current_lamports % U64LIMIT := by rw [← h]
  have eplat : s'.platform_token_balance = s.platform_token_balance := by rw [← h]
  have eres : s'.contributor_reserve = s.contributor_reserve := by rw [← h]
  have eprop : s'.proposal_current = s.proposal_current := by rw [← h]
  have euw : s'.user_token_balance who = s.user_token_balance who
      + contributorTokens * (s.contribs who).amount_lamports
        / s.current_lamports % U64LIMIT := by
    rw [← h]
    simp [Function.update_same]
  have euo : ∀ k, k ≠ who → s'.user_token_balance k = s.user_token_balance k := by
    intro k hk
    rw [← h]
    exact Function.update_noteq hk _ _
  have e14 : ∀ k, k ≠ who → s'.contribs k = s.contribs k := by
    intro k hk
    rw [← h]
    exact Function.update_noteq hk _ _
  have e15a : (s'.contribs who).amount_lamports = (s.contribs who).amount_lamports := by
    rw [← h]
    simp [Function.update_same]
  have e15b : (s'.contribs who).claimed = true := by
    rw [← h]
    simp [Function.update_same]
  have e15c : (s'.contribs who).refunded_lamports
      = (s.contribs who).refunded_lamports := by
    rw [← h]
    simp [Function.update_same]
  have hent : ∀ k, entitled s' k = entitled s k := by
    intro k
    unfold entitled
    rw [ecur]
    rcases eq_or_ne k who with rfl | hkw
    · rw [e15a]
    · rw [e14 k hkw]
  have hCS : claimedSet s' = insert who (claimedSet s) := by
    unfold claimedSet
    rw [ekeys]
    apply Finset.ext
    intro k
    rw [Finset.mem_insert, Finset.mem_filter, Finset.mem_filter]
    rcases eq_or_ne k who with rfl | hkw
    · simp [e15b, e15c, hwc, hwhoNR]
    · rw [e14 k hkw]
      simp [hkw]
  refine ⟨?_, ?_, ?_, ?_, ?_, ?_, ?_, ?_, ?_, ?_, ?_, ?_, ?_, ?_, ?_⟩
  · intro k hk
    rw [ekeys] at hk
    rw [e14 k (fun hkw => hk (hkw ▸ hwc))]
    exact hs.offC k hk
  · intro k hk
    rw [ekeys] at hk
    rcases eq_or_ne k who with rfl | hkw
    · rw [e15a]
      exact hs.posC k hk
    · rw [e14 k hkw]
      exact hs.posC k hk
  · intro k
    rcases eq_or_ne k who with rfl | hkw
    · rw [e15a]
      exact hs.bndC k
    · rw [e14 k hkw]
      exact hs.bndC k
  · intro k
    rcases eq_or_ne k who with rfl | hkw
    · rw [e15a, e15c]
      exact hs.refLe k
    · rw [e14 k hkw]
      exact hs.refLe k
  · intro k
    rcases eq_or_ne k who with rfl | hkw
    · intro _
      exact e15b
    · rw [e14 k hkw]
      exact hs.refC k
  · intro k hk
    rw [evk] at hk
    rw [ev]
    exact hs.offV k hk
  · intro k hk
    rw [evk] at hk
    rw [ev]
    rcases eq_or_ne k who with rfl | hkw
    · rw [e15a]
      exact hs.onV k hk
    · rw [e14 k hkw]
      exact hs.onV k hk
  · rw [evk, ekeys]
    exact hs.subV
  · rw [eap, erj]
    have := hs.tally
    unfold votedWeightSum at this ⊢
    rw [evk, ev]
    exact this
  · rw [ecur]
    have hAS : amtSum s' = amtSum s := by
      unfold amtSum
      rw [ekeys]
      refine fsum_congr _ _ _ fun k hk => ?_
      rcases eq_or_ne k who with rfl | hkw
      · exact e15a
      · exact congrArg ContributionRecord.amount_lamports (e14 k hkw)
    have hRS : refundedSum s' = refundedSum s := by
      unfold refundedSum
      rw [ekeys]
      refine fsum_congr _ _ _ fun k hk => ?_
      rcases eq_or_ne k who with rfl | hkw
      · exact e15c
      · exact congrArg ContributionRecord.refunded_lamports (e14 k hkw)
    rw [hAS, hRS]
    exact hs.conserv
  · rw [ees, ewin, ecur]
    exact hs.escrowEq
  · intro hf
    rw [est] at hf
    rcases hstat with h1 | h1 <;> rw [h1] at hf <;> exact absurd hf (by simp)
  · intro hf
    rw [est] at hf
    rcases hstat with h1 | h1 <;> rw [h1] at hf <;> exact absurd hf (by simp)
  · intro hf
    rw [est] at hf
    rcases hstat with h1 | h1 <;> rw [h1] at hf <;> exact absurd hf (by simp)
  · intro _
    refine ⟨by rw [ecur]; exact hc0, by rw [emin]; exact hmint,
      by rw [eplat]; exact hplat, by rw [eres]; exact hres, ?_, ?_, ?_⟩
    · have hsum : (claimedSet s').sum (entitled s')
          = entitled s who + (claimedSet s).sum (entitled s) := by
        rw [hCS, fsum_insert (claimedSet s) who (entitled s') (entitled s) hwcs
          (fun k _ => hent k)]
        rw [hent who]
      rw [hsum, epool, hut]
      omega
    · intro k hk
      rw [hCS] at hk
      rcases Finset.mem_insert.mp hk with rfl | hk2
      · rw [euw, hu0, hut, hent k]
        omega
      · rw [euo k (fun hkw => hwcs (hkw ▸ hk2)), hent k]
        exact huserIn k hk2
    · intro k hk
      rw [hCS] at hk
      simp only [Finset.mem_insert, not_or] at hk
      rw [euo k hk.1]
      exact huserOut k hk.2

lemma inv_step (s s' : PoolState) (op : Op) (h : step s op = .ok s') (hs : Inv s) :
    Inv s' := by
  cases op with
  | contribute now who amount => exact inv_contribute s s' now who amount h hs
  | proposeFinalize now => exact inv_propose s s' now h hs
  | confirmVote now who ap => exact inv_confirm_vote s s' now who ap h hs
  | executeDistribution => exact inv_execute s s' h hs
  | expireConfirmation now => exact inv_expire s s' now h hs
  | claim who => exact inv_claim s s' who h hs
  | refund now who => exact inv_refund s s' now who h hs
  | pausePool => exact inv_pause s s' h hs
  | unpausePool => exact inv_unpause s s' h hs
  | cancelPool => exact inv_cancel s s' h hs
  | completePool => exact inv_complete s s' h hs

/-- Every reachable pool state satisfies the ledger invariant. -/
theorem reachable_inv (s : PoolState) (h : Reachable s) : Inv s := by
  induction h with
  | create now target deadline dur s hc => exact inv_create now target deadline dur s hc
  | step s op s' _ hstep ih => exact inv_step s s' op hstep ih

/-- A record once closed as claimed stays closed, and the tokens already
received by its contributor never change again, under any instruction. -/
lemma step_claimed_mono (s s1 : PoolState) (op : Op) (who : Nat)
    (hstep : step s op = .ok s1) (hcl : (s.contribs who).claimed = true) :
    (s1.contribs who).claimed = true
    ∧ s1.user_token_balance who = s.user_token_balance who := by
  cases op with
  | contribute now who' a =>
    simp only [step] at hstep
    unfold contribute at hstep
    simp only [] at hstep
    repeat' split at hstep
    all_goals first
      | exact Except.noConfusion hstep
      | (injection hstep with hstep
         refine ⟨?_, by rw [← hstep]⟩
         rw [← hstep]
         show (Function.update s.contribs who' _ who).claimed = true
         rcases eq_or_ne who who' with rfl | hne
         · rw [Function.update_same]
           exact hcl
         · rw [Function.update_noteq hne]
           exact hcl)
  | proposeFinalize now =>
    simp only [step] at hstep
    unfold propose_finalize at hstep
    repeat' split at hstep
    all_goals first
      | exact Except.noConfusion hstep
      | exact ⟨by rw [← (by injection hstep : _ = s1)]; exact hcl,
          by rw [← (by injection hstep : _ = s1)]⟩
  | confirmVote now who' ap =>
    simp only [step] at hstep
    unfold confirm_vote at hstep
    simp only [] at hstep
    repeat' split at hstep
    all_goals first
      | exact Except.noConfusion hstep
      | exact ⟨by rw [← (by injection hstep : _ = s1)]; exact hcl,
          by rw [← (by injection hstep : _ = s1)]⟩
  | executeDistribution =>
    simp only [step] at hstep
    unfold execute_distribution at hstep
    simp only [] at hstep
    repeat' split at hstep
    all_goals first
      | exact Except.noConfusion hstep
      | exact ⟨by rw [← (by injection hstep : _ = s1)]; exact hcl,
          by rw [← (by injection hstep : _ = s1)]⟩
  | expireConfirmation now =>
    simp only [step] at hstep
    unfold expire_confirmation at hstep
    repeat' split at hstep
    all_goals first
      | exact Except.noConfusion hstep
      | exact ⟨by rw [← (by injection hstep : _ = s1)]; exact hcl,
          by rw [← (by injection hstep : _ = s1)]⟩
  | claim who' =>
    simp only [step] at hstep
    unfold claim at hstep
    split at hstep
    next => exact Except.noConfusion hstep
    split at hstep
    next => exact Except.noConfusion hstep
    simp only [] at hstep
    split at hstep
    next => exact Except.noConfusion hstep
    split at hstep
    next => exact Except.noConfusion hstep
    split at hstep
    next => exact Except.noConfusion hstep
    split at hstep
    next => exact Except.noConfusion hstep
    case _ hclq hamtq hmlq hczq =>
    split at hstep
    next => exact Except.noConfusion hstep
    injection hstep with hstep
    have hne : who ≠ who' := by
      rintro rfl
      exact hclq hcl
    refine ⟨?_, ?_⟩
    · rw [← hstep]
      show (Function.update s.contribs who' _ who).claimed = true
      rw [Function.update_noteq hne]
      exact hcl
    · rw [← hstep]
      show Function.update s.user_token_balance who' _ who = _
      rw [Function.update_noteq hne]
  | refund now who' =>
    simp only [step] at hstep
    unfold refund at hstep
    split at hstep
    next => exact Except.noConfusion hstep
    simp only [] at hstep
    split at hstep
    next => exact Except.noConfusion hstep
    split at hstep
    next => exact Except.noConfusion hstep
    split at hstep
    next => exact Except.noConfusion hstep
    split at hstep
    next => exact Except.noConfusion hstep
    case _ hclq hamtq hescq hcurq =>
    injection hstep with hstep
    have hne : who ≠ who' := by
      rintro rfl
      exact hclq hcl
    refine ⟨?_, by rw [← hstep]⟩
    rw [← hstep]
    show (Function.update s.contribs who' _ who).claimed = true
    rw [Function.update_noteq hne]
    exact hcl
  | pausePool =>
    simp only [step] at hstep
    unfold pause_pool at hstep
    repeat' split at hstep
    all_goals first
      | exact Except.noConfusion hstep
      | exact ⟨by rw [← (by injection hstep : _ = s1)]; exact hcl,
          by rw [← (by injection hstep : _ = s1)]⟩
  | unpausePool =>
    simp only [step] at hstep
    unfold unpause_pool at hstep
    repeat' split at hstep
    all_goals first
      | exact Except.noConfusion hstep
      | exact ⟨by rw [← (by injection hstep : _ = s1)]; exact hcl,
          by rw [← (by injection hstep : _ = s1)]⟩
  | cancelPool =>
    simp only [step] at hstep
    unfold cancel_pool at hstep
    repeat' split at hstep
    all_goals first
      | exact Except.noConfusion hstep
      | exact ⟨by rw [← (by injection hstep : _ = s1)]; exact hcl,
          by rw [← (by injection hstep : _ = s1)]⟩
  | completePool =>
    simp only [step] at hstep
    unfold complete_pool at hstep
    repeat' split at hstep
    all_goals first
      | exact Except.noConfusion hstep
      | exact ⟨by rw [← (by injection hstep : _ = s1)]; exact hcl,
          by rw [← (by injection hstep : _ = s1)]⟩

lemma applyOp_claimed_mono (s : PoolState) (op : Op) (who : Nat)
    (hcl : (s.contribs who).claimed = true) :
    ((applyOp s op).contribs who).claimed = true
    ∧ (applyOp s op).user_token_balance who = s.user_token_balance who := by
  unfold applyOp
  cases hres : step s op with
  | error e => exact ⟨hcl, rfl⟩
  | ok s1 => exact step_claimed_mono s s1 op who hres hcl

lemma run_claimed_mono (s : PoolState) (ops : List Op) (who : Nat)
    (hcl : (s.contribs who).claimed = true) :
    ((run s ops).contribs who).claimed = true
    ∧ (run s ops).user_token_balance who = s.user_token_balance who := by
  induction ops generalizing s with
  | nil => exact ⟨hcl, rfl⟩
  | cons op ops ih =>
    unfold run
    simp only [List.foldl_cons]
    have h1 := applyOp_claimed_mono s op who hcl
    have h2 := ih (applyOp s op) h1.1
    unfold run at h2
    exact ⟨h2.1, h2.2.trans h1.2⟩

/-- Once a pool is distributing (or complete) it stays so. -/
lemma step_dist_mono (s s1 : PoolState) (op : Op) (hstep : step s op = .ok s1)
    (hst : s.status = PoolStatus.Distributing ∨ s.status = PoolStatus.Complete) :
    s1.status = PoolStatus.Distributing ∨ s1.status = PoolStatus.Complete := by
  cases op with
  | contribute now who' a =>
    simp only [step] at hstep
    unfold contribute at hstep
    simp only [] at hstep
    repeat' split at hstep
    all_goals first
      | exact Except.noConfusion hstep
      | (rcases hst with h1 | h1 <;> simp_all)
  | proposeFinalize now =>
    simp only [step] at hstep
    unfold propose_finalize at hstep
    repeat' split at hstep
    all_goals first
      | exact Except.noConfusion hstep
      | (rcases hst with h1 | h1 <;> simp_all)
  | confirmVote now who' ap =>
    simp only [step] at hstep
    unfold confirm_vote at hstep
    simp only [] at hstep
    repeat' split at hstep
    all_goals first
      | exact Except.noConfusion hstep
      | (rcases hst with h1 | h1 <;> simp_all)
  | executeDistribution =>
    simp only [step] at hstep
    unfold execute_distribution at hstep
    simp only [] at hstep
    repeat' split at hstep
    all_goals first
      | exact Except.noConfusion hstep
      | (rcases hst with h1 | h1 <;> simp_all)
  | expireConfirmation now =>
    simp only [step] at hstep
    unfold expire_confirmation at hstep
    repeat' split at hstep
    all_goals first
      | exact Except.noConfusion hstep
      | (rcases hst with h1 | h1 <;> simp_all)
  | claim who' =>
    simp only [step] at hstep
    unfold claim at hstep
    simp only [] at hstep
    repeat' split at hstep
    all_goals first
      | exact Except.noConfusion hstep
      | (injection hstep with hstep; rw [← hstep]; exact hst)
  | refund now who' =>
    simp only [step] at hstep
    unfold refund at hstep
    simp only [] at hstep
    repeat' split at hstep
    all_goals first
      | exact Except.noConfusion hstep
      | (rcases hst with h1 | h1 <;> simp_all)
  | pausePool =>
    simp only [step] at hstep
    unfold pause_pool at hstep
    repeat' split at hstep
    all_goals first
      | exact Except.noConfusion hstep
      | (injection hstep with hstep; rw [← hstep]; exact hst)
  | unpausePool =>
    simp only [step] at hstep
    unfold unpause_pool at hstep
    repeat' split at hstep
    all_goals first
      | exact Except.noConfusion hstep
      | (injection hstep with hstep; rw [← hstep]; exact hst)
  | cancelPool =>
    simp only [step] at hstep
    unfold cancel_pool at hstep
    repeat' split at hstep
    all_goals first
      | exact Except.noConfusion hstep
      | (rcases hst with h1 | h1 <;> simp_all)
  | completePool =>
    simp only [step] at hstep
    unfold complete_pool at hstep
    repeat' split at hstep
    all_goals first
      | exact Except.noConfusion hstep
      | (injection hstep with hstep; rw [← hstep]; exact Or.inr rfl)

lemma run_dist_mono (s : PoolState) (ops : List Op)
    (hst : s.status = PoolStatus.Distributing ∨ s.status = PoolStatus.Complete) :
    (run s ops).status = PoolStatus.Distributing
    ∨ (run s ops).status = PoolStatus.Complete := by
  induction ops generalizing s with
  | nil => exact hst
  | cons op ops ih =>
    unfold run
    simp only [List.foldl_cons]
    have h1 : (applyOp s op).status = PoolStatus.Distributing
        ∨ (applyOp s op).status = PoolStatus.Complete := by
      unfold applyOp
      cases hres : step s op with
      | error e => exact hst
      | ok s1 => exact step_dist_mono s s1 op hres hst
    have h2 := ih (applyOp s op) h1
    unfold run at h2
    exact h2

lemma reachable_applyOp (s : PoolState) (op : Op) (h : Reachable s) :
    Reachable (applyOp s op) := by
  unfold applyOp
  cases hres : step s op with
  | error e => exact h
  | ok s1 => exact Reachable.step s op s1 h hres

lemma reachable_run (s : PoolState) (ops : List Op) (h : Reachable s) :
    Reachable (run s ops) := by
  induction ops generalizing s with
  | nil => exact h
  | cons op ops ih =>
    unfold run
    simp only [List.foldl_cons]
    have := ih (applyOp s op) (reachable_applyOp s op h)
    unfold run at this
    exact this

lemma claimedSet_entitled_bound (s : PoolState) (hs : Inv s) (who : Nat)
    (hwc : who ∈ s.contribKeys) (hnr : (s.contribs who).refunded_lamports = 0)
    (hncl : who ∉ claimedSet s) :
    (claimedSet s).sum (entitled s) + entitled s who ≤ contributorTokens := by
  have hsub : insert who (claimedSet s) ⊆ s.contribKeys.filter
      (fun k => (s.contribs k).refunded_lamports = 0) := by
    intro k hk
    rcases Finset.mem_insert.mp hk with rfl | hk2
    · exact Finset.mem_filter.mpr ⟨hwc, hnr⟩
    · have hm := Finset.mem_filter.mp hk2
      exact Finset.mem_filter.mpr ⟨hm.1, hm.2.2⟩
  have h1 : (insert who (claimedSet s)).sum (entitled s)
      = entitled s who + (claimedSet s).sum (entitled s) := Finset.sum_insert hncl
  have h2 : (insert who (claimedSet s)).sum (entitled s)
      ≤ (s.contribKeys.filter fun k => (s.contribs k).refunded_lamports = 0).sum
          (entitled s) :=
    Finset.sum_le_sum_of_subset hsub
  have h3 : ((s.contribKeys.filter fun k =>
        (s.contribs k).refunded_lamports = 0).sum (entitled s))
      ≤ contributorTokens := by
    have := sum_mul_div_le
      (s.contribKeys.filter fun k => (s.contribs k).refunded_lamports = 0)
      (fun k => (s.contribs k).amount_lamports) contributorTokens s.current_lamports
      (nonrefunded_sum_le s hs)
    unfold entitled
    exact this
  omega

/-- In a reachable distributing/complete pool, a first claim by a live
contributor goes through and transfers exactly the entitlement. -/
lemma claim_succeeds (s : PoolState) (hs : Inv s) (who : Nat)
    (hp : s.paused = false)
    (hst : s.status = PoolStatus.Distributing ∨ s.status = PoolStatus.Complete)
    (hcl : (s.contribs who).claimed = false)
    (hamt : 0 < (s.contribs who).amount_lamports) :
    ∃ s', claim s who = .ok s'
      ∧ s'.user_token_balance who = entitled s who
      ∧ (s'.contribs who).claimed = true
      ∧ s'.status = s.status
      ∧ s'.paused = s.paused := by
  obtain ⟨hc0, hmint, hplat, hres, hpool, huserIn, huserOut⟩ := hs.pDist hst
  have hwc : who ∈ s.contribKeys := mem_contribKeys s hs who (by omega)
  have hnr : (s.contribs who).refunded_lamports = 0 := by
    rcases Nat.eq_zero_or_pos (s.contribs who).refunded_lamports with h0 | hpos
    · exact h0
    · rw [hs.refC who hpos] at hcl
      exact absurd hcl (by simp)
  have hwcs : who ∉ claimedSet s := by
    intro hmem
    rw [(Finset.mem_filter.mp hmem).2.1] at hcl
    exact absurd hcl (by simp)
  have hu0 : s.user_token_balance who = 0 := huserOut who hwcs
  have hC64 : contributorTokens < U64LIMIT := by decide
  have hmul : contributorTokens * (s.contribs who).amount_lamports < U128LIMIT := by
    have hb := hs.bndC who
    have h1 : contributorTokens * (s.contribs who).amount_lamports
        < U64LIMIT * U64LIMIT :=
      Nat.mul_lt_mul_of_lt_of_lt hC64 hb
    have h2 : U64LIMIT * U64LIMIT = U128LIMIT := by decide
    omega
  have hle := amount_le_current s hs who hwc hnr
  have hentle : entitled s who ≤ contributorTokens := by
    unfold entitled
    have h1 : contributorTokens * (s.contribs who).amount_lamports
        ≤ contributorTokens * s.current_lamports := Nat.mul_le_mul_left _ hle
    have h2 := Nat.div_le_div_right (c := s.current_lamports) h1
    rw [Nat.mul_div_cancel _ hc0] at h2
    exact h2
  have hut : contributorTokens * (s.contribs who).amount_lamports
      / s.current_lamports % U64LIMIT = entitled s who := by
    unfold entitled
    have : contributorTokens * (s.contribs who).amount_lamports
        / s.current_lamports < U64LIMIT := by
      have := hentle
      unfold entitled at this
      omega
    exact Nat.mod_eq_of_lt this
  have hbound := claimedSet_entitled_bound s hs who hwc hnr hwcs
  have hTP : contributorTokens ≤ totalTokens - platformTokens := by decide
  have hple : contributorTokens * (s.contribs who).amount_lamports
      / s.current_lamports % U64LIMIT ≤ s.pool_token_balance := by
    rw [hut]
    omega
  unfold claim
  rw [if_neg (by simp [hp]), if_neg (not_not_intro hst)]
  simp only []
  rw [if_neg (by simp [hcl]), if_neg (by omega), if_neg (by omega),
    if_neg (by omega), if_neg (by omega)]
  refine ⟨_, rfl, ?_, ?_, rfl, rfl⟩
  · show Function.update s.user_token_balance who _ who = entitled s who
    rw [Function.update_same, hu0, Nat.zero_add, hut]
  · show (Function.update s.contribs who _ who).claimed = true
    rw [Function.update_same]

/-- A live contribution can always be refunded once the pool is cancelled or
its funding deadline has expired, pause or not. -/
lemma refund_succeeds (s : PoolState) (hs : Inv s) (now : Int) (who : Nat)
    (hstat : s.status = PoolStatus.Cancelled
      ∨ (s.status = PoolStatus.Funding ∧ s.deadline < now))
    (hcl : (s.contribs who).claimed = false)
    (hamt : 0 < (s.contribs who).amount_lamports) :
    ∃ s', refund s now who = .ok s' := by
  have hwc : who ∈ s.contribKeys := mem_contribKeys s hs who (by omega)
  have hnr : (s.contribs who).refunded_lamports = 0 := by
    rcases Nat.eq_zero_or_pos (s.contribs who).refunded_lamports with h0 | hpos
    · exact h0
    · rw [hs.refC who hpos] at hcl
      exact absurd hcl (by simp)
  have hle := amount_le_current s hs who hwc hnr
  have hw0 : s.winner_lamports = 0 := by
    rcases hstat with h1 | h1
    · exact (hs.pCanc h1).1
    · exact (hs.pFund h1.1).2.2.2.1
  have hesc := hs.escrowEq
  unfold refund
  rw [if_neg (not_not_intro hstat)]
  simp only []
  rw [if_neg (by simp [hcl]), if_neg (by omega), if_neg (by omega),
    if_neg (by omega)]
  exact ⟨_, rfl⟩

lemma contribute_paused (s : PoolState) (now : Int) (who a : Nat)
    (hp : s.paused = true) (ha : a ≠ 0) :
    contribute s now who a = .error .PoolPaused := by
  unfold contribute
  rw [if_neg ha, if_pos hp]

lemma claim_paused (s : PoolState) (who : Nat) (hp : s.paused = true) :
    claim s who = .error .PoolPaused := by
  unfold claim
  rw [if_pos hp]

lemma execute_paused (s : PoolState) (hp : s.paused = true) :
    execute_distribution s = .error .PoolPaused := by
  unfold execute_distribution
  rw [if_pos hp]

lemma propose_paused (s : PoolState) (now : Int) (hp : s.paused = true) :
    propose_finalize s now = .error .PoolPaused := by
  unfold propose_finalize
  rw [if_pos hp]

/-- Field-level description of a successful distribution. -/
lemma execute_distribution_fields (s s' : PoolState)
    (h : execute_distribution s = .ok s') :
    s'.status = PoolStatus.Distributing
    ∧ s'.winner_lamports = s.winner_lamports
        + s.current_lamports * WINNER_SHARE_BPS / 10000
    ∧ s'.total_minted = s.total_minted + totalTokens
    ∧ s'.platform_token_balance = s.platform_token_balance + platformTokens
    ∧ s'.contributor_reserve = contributorTokens
    ∧ s'.paused = s.paused
    ∧ s.paused = false := by
  unfold execute_distribution at h
  split at h
  next => exact Except.noConfusion h
  split at h
  next => exact Except.noConfusion h
  split at h
  next => exact Except.noConfusion h
  split at h
  next => exact Except.noConfusion h
  case _ hp hst happ hov =>
  simp only [] at h
  split at h
  next => exact Except.noConfusion h
  split at h
  next => exact Except.noConfusion h
  split at h
  next => exact Except.noConfusion h
  split at h
  next => exact Except.noConfusion h
  injection h with h
  refine ⟨by rw [← h], by rw [← h], by rw [← h], by rw [← h], by rw [← h],
    by rw [← h], ?_⟩
  rcases hb : s.paused with _ | _
  · rfl
  · exact absurd hb hp

/-- Characterization of when a distribution goes through, on a reachable
state: the status, pause and weight guards plus the absence of u64
overflow in the winner payout. -/
lemma execute_distribution_ok_iff (s : PoolState) (hs : Inv s) :
    (∃ s', execute_distribution s = .ok s') ↔
      (s.status = PoolStatus.Confirming ∧ s.paused = false
        ∧ s.reject_lamports < s.approve_lamports
        ∧ s.current_lamports * WINNER_SHARE_BPS < U64LIMIT) := by
  constructor
  · rintro ⟨s', hx⟩
    unfold execute_distribution at hx
    split at hx
    next => exact Except.noConfusion hx
    split at hx
    next => exact Except.noConfusion hx
    split at hx
    next => exact Except.noConfusion hx
    split at hx
    next => exact Except.noConfusion hx
    case _ hp hst happ hov =>
    rw [not_not] at hst
    refine ⟨hst, ?_, by omega, by omega⟩
    rcases hb : s.paused with _ | _
    · rfl
    · exact absurd hb hp
  · rintro ⟨h1, h2, h3, h4⟩
    obtain ⟨hPD, hpc, hc0⟩ := hs.pConf h1
    have hw0 : s.winner_lamports = 0 := hPD.1
    have hesc := hs.escrowEq
    have hwle : s.current_lamports * WINNER_SHARE_BPS / 10000
        ≤ s.current_lamports := by
      have hb : s.current_lamports * WINNER_SHARE_BPS
          ≤ s.current_lamports * 10000 :=
        Nat.mul_le_mul_left _ (by decide)
      have := Nat.div_le_div_right (c := 10000) hb
      rw [Nat.mul_div_cancel _ (by decide : (0:Nat) < 10000)] at this
      exact this
    unfold execute_distribution
    rw [if_neg (by simp [h2]), if_neg (not_not_intro h1), if_neg (by omega),
      if_neg (by omega)]
    simp only []
    rw [if_neg (by omega), if_neg (by decide), if_neg (by decide),
      if_neg (by decide)]
    exact ⟨_, rfl⟩

lemma claim_already (t : PoolState) (who : Nat) (hp : t.paused = false)
    (hst : t.status = PoolStatus.Distributing ∨ t.status = PoolStatus.Complete)
    (hcl : (t.contribs who).claimed = true) :
    claim t who = .error .AlreadyClaimed := by
  unfold claim
  rw [if_neg (by simp [hp]), if_neg (not_not_intro hst)]
  simp only []
  rw [if_pos hcl]

lemma list_sum_div_le (l : List Nat) (V : Nat) :
    (l.map fun x => x / V).sum ≤ l.sum / V := by
  induction l with
  | nil => simp
  | cons a t ih =>
    simp only [List.map_cons, List.sum_cons]
    calc a / V + (t.map fun x => x / V).sum ≤ a / V + t.sum / V :=
      Nat.add_le_add_left ih _
    _ ≤ (a + t.sum) / V := Nat.add_div_le_add_div _ _ _

lemma list_sum_mul (C : Nat) (l : List Nat) :
    (l.map fun a => C * a).sum = C * l.sum := by
  induction l with
  | nil => simp
  | cons a t ih => simp [List.map_cons, List.sum_cons, ih, Nat.mul_add]

/-! ## Concrete example pools

`exPool0` is the pool written by `create_pool 0 100 10 0` (target 100,
funding deadline 10, default confirmation window).  The traces below then
drive it through the lifecycle. -/

def exPool0 : PoolState := initialPool 100 10 172800

/-- Funding → Confirming with a single 100-lamport contributor who voted
approve: current = 100, approve = 100, reject = 0. -/
def cxConf : PoolState := run exPool0
  [Op.contribute 5 0 100, Op.proposeFinalize 6, Op.confirmVote 7 0 true]

/-- `cxConf` after a successful distribution: Distributing, winner paid 5. -/
def cxC1 : PoolState := applyOp cxConf Op.executeDistribution

/-- A pool where contributor 0 (100 lamports) was refunded after the funding
deadline, finalization was then proposed on the remaining 50 lamports, and
the refunded contributor still voted with weight 100. -/
def cxC5 : PoolState := run exPool0
  [Op.contribute 5 0 100, Op.contribute 5 1 50, Op.refund 11 0,
   Op.proposeFinalize 12, Op.confirmVote 13 0 true]

def exPoolB : PoolState := initialPool 1 10 172800

/-- A confirming pool holding `2 ^ 64 - 1` lamports with unanimous approval:
every guard of `execute_distribution` passes, yet the winner-payout
multiplication overflows u64. -/
def cxC4 : PoolState := run exPoolB
  [Op.contribute 5 0 (2 ^ 64 - 1), Op.proposeFinalize 6,
   Op.confirmVote 7 0 true]

/-- A paused, cancelled pool with one live 100-lamport contribution. -/
def cxPaused : PoolState := run exPool0
  [Op.contribute 5 0 100, Op.pausePool, Op.cancelPool]

lemma reachable_exPool0 : Reachable exPool0 := Reachable.create 0 100 10 0 _ rfl

lemma reachable_cxConf : Reachable cxConf := reachable_run _ _ reachable_exPool0

lemma reachable_cxC1 : Reachable cxC1 := reachable_applyOp _ _ reachable_cxConf

lemma reachable_cxC5 : Reachable cxC5 := reachable_run _ _ reachable_exPool0

lemma reachable_cxC4 : Reachable cxC4 :=
  reachable_run _ _ (Reachable.create 0 1 10 0 _ rfl)

lemma reachable_cxPaused : Reachable cxPaused :=
  reachable_run _ _ reachable_exPool0

/-! ## Claims -/

/-- C1, counterexample: after the distribution of `cxConf` the winner was paid 5
lamports from escrow while no contribution is refunded or claimed, yet
`current_lamports` is still 100, not `100 - 5`: the claimed equation
`current_lamports = live contributions - value paid out` is false on the
code, which never decrements `current_lamports` at distribution or claim. -/
theorem c1_counterexample :
    Reachable cxC1
    ∧ liveSum cxC1 = 100
    ∧ cxC1.winner_lamports + refundedSum cxC1 = 5
    ∧ cxC1.current_lamports = 100
    ∧ cxC1.current_lamports
        ≠ liveSum cxC1 - (cxC1.winner_lamports + refundedSum cxC1) :=
  ⟨reachable_cxC1, by decide, by decide, by decide, by decide⟩

/-- C1 (amended): for every reachable pool state, `current_lamports` equals
the total ever contributed minus the total refunded (so refunds are the only
decrement), while the winner payout is reflected in the escrow
balance of the pool: escrow + winner payout = current_lamports.  Claims and the
distribution payout leave `current_lamports` untouched. -/
theorem c1_value_conservation (s : PoolState) (h : Reachable s) :
    s.current_lamports + refundedSum s = amtSum s
    ∧ s.escrow_lamports + s.winner_lamports = s.current_lamports := by
  have hi := reachable_inv s h
  exact ⟨hi.conserv, hi.escrowEq⟩

/-- C1 witness: the conservation equations hold in the concrete distributed
pool `cxC1`. -/
theorem c1_value_conservation_witness :
    cxC1.current_lamports + refundedSum cxC1 = amtSum cxC1
    ∧ cxC1.escrow_lamports + cxC1.winner_lamports = cxC1.current_lamports :=
  c1_value_conservation cxC1 reachable_cxC1

/-- A confirming pool holding `cur` lamports with approval 1 ahead of rejection 0,
used to evaluate the distribution arithmetic at chosen pool values. -/
def mkConfirming (cur : Nat) : PoolState :=
  { initialPool cur 10 172800 with
    status := PoolStatus.Confirming
    current_lamports := cur
    escrow_lamports := cur
    approve_lamports := 1
    proposal_current := cur }

/-- C2: every successful distribution pays the winner exactly
`floor(V * 500 / 10000)` lamports, mints exactly `1,000,000,000 * 10^6`
token base units (and a second execution is impossible), sends the platform
exactly `floor(total * 100 / 10000)` tokens and reserves
`floor(total * 9400 / 10000)` for contributors; concretely `V = 10^9` pays
the winner `50,000,000` and `V = 3` pays `0`. -/
theorem c2_distribution_arithmetic :
    (∀ s s', execute_distribution s = .ok s' →
      s'.winner_lamports = s.winner_lamports
          + s.current_lamports * WINNER_SHARE_BPS / 10000
      ∧ s'.total_minted = s.total_minted + totalTokens
      ∧ totalTokens = 1000000000 * 10 ^ 6
      ∧ s'.platform_token_balance = s.platform_token_balance + platformTokens
      ∧ platformTokens = totalTokens * 100 / 10000
      ∧ s'.contributor_reserve = totalTokens * 9400 / 10000
      ∧ execute_distribution s' = .error .NotConfirming)
    ∧ (∃ s', execute_distribution (mkConfirming 1000000000) = .ok s'
        ∧ s'.winner_lamports = 50000000)
    ∧ (∃ s', execute_distribution (mkConfirming 3) = .ok s'
        ∧ s'.winner_lamports = 0) := by
  refine ⟨?_, ⟨_, rfl, by decide⟩, ⟨_, rfl, by decide⟩⟩
  intro s s' h
  have hf := execute_distribution_fields s s' h
  have hp' : s'.paused = false := by
    rw [hf.2.2.2.2.2.1]
    exact hf.2.2.2.2.2.2
  refine ⟨hf.2.1, hf.2.2.1, by decide, hf.2.2.2.1, by decide,
    by rw [hf.2.2.2.2.1]; rfl, ?_⟩
  unfold execute_distribution
  rw [if_neg (by simp [hp']), if_pos (by rw [hf.1]; simp)]

/-- C2 witness: instantiating the general part at the concrete distribution
of `cxConf` (pool value 100). -/
theorem c2_distribution_arithmetic_witness :
    cxC1.winner_lamports = cxConf.winner_lamports
        + cxConf.current_lamports * WINNER_SHARE_BPS / 10000
    ∧ cxC1.total_minted = cxConf.total_minted + totalTokens
    ∧ execute_distribution cxC1 = .error .NotConfirming := by
  have hx : execute_distribution cxConf = .ok cxC1 := rfl
  have := (c2_distribution_arithmetic.1) cxConf cxC1 hx
  exact ⟨this.1, this.2.1, this.2.2.2.2.2.2⟩

/-- C3: in a reachable, unpaused pool in Distributing or Complete status,
the first claim of a live contribution of amount `a` succeeds, transfers
exactly `floor(contributor_tokens * a / current_lamports)` tokens and sets
`claimed`; afterwards, whatever instructions run, the received-token balance of
that contributor stays exactly that entitlement and any further claim
attempt (while unpaused) fails with the already-claimed error. -/
theorem c3_claim_exclusivity (s : PoolState) (who a : Nat) (h : Reachable s)
    (hst : s.status = PoolStatus.Distributing ∨ s.status = PoolStatus.Complete)
    (hp : s.paused = false)
    (hcl : (s.contribs who).claimed = false)
    (ha : (s.contribs who).amount_lamports = a) (ha0 : 0 < a) :
    ∃ s', claim s who = .ok s'
      ∧ s'.user_token_balance who = contributorTokens * a / s.current_lamports
      ∧ (s'.contribs who).claimed = true
      ∧ (∀ ops, (run s' ops).user_token_balance who
          = contributorTokens * a / s.current_lamports)
      ∧ (∀ ops, (run s' ops).paused = false →
          claim (run s' ops) who = .error .AlreadyClaimed) := by
  have hi := reachable_inv s h
  obtain ⟨s', hok, huser, hclaimed, hstat_eq, _⟩ :=
    claim_succeeds s hi who hp hst hcl (by omega)
  have hent : entitled s who = contributorTokens * a / s.current_lamports := by
    unfold entitled
    rw [ha]
  refine ⟨s', hok, by rw [huser, hent], hclaimed, ?_, ?_⟩
  · intro ops
    have hm := run_claimed_mono s' ops who hclaimed
    rw [hm.2, huser, hent]
  · intro ops hpt
    have hm := run_claimed_mono s' ops who hclaimed
    have hd := run_dist_mono s' ops (by rw [hstat_eq]; exact hst)
    exact claim_already _ who hpt hd hm.1

/-- C3 witness: contributor 0 of `cxC1` (amount 100, pool value 100) claims
exactly the full contributor share and can never claim again. -/
theorem c3_claim_exclusivity_witness :
    ∃ s', claim cxC1 0 = .ok s'
      ∧ s'.user_token_balance 0
          = contributorTokens * 100 / cxC1.current_lamports
      ∧ (s'.contribs 0).claimed = true
      ∧ (∀ ops, (run s' ops).paused = false →
          claim (run s' ops) 0 = .error .AlreadyClaimed) := by
  obtain ⟨s', h1, h2, h3, _, h5⟩ := c3_claim_exclusivity cxC1 0 100
    reachable_cxC1 (Or.inl (by decide)) (by decide) (by decide) (by decide)
    (by decide)
  exact ⟨s', h1, h2, h3, h5⟩

/-- C4, counterexample: `cxC4` is a reachable state passing every guard the
claim lists (Confirming, unpaused, approval strictly ahead), yet
`execute_distribution` fails — the winner-payout multiplication
`current_lamports * 500` overflows u64 — so the claimed `iff` is false as
stated. -/
theorem c4_counterexample :
    Reachable cxC4
    ∧ cxC4.status = PoolStatus.Confirming
    ∧ cxC4.paused = false
    ∧ cxC4.reject_lamports < cxC4.approve_lamports
    ∧ execute_distribution cxC4 = .error .Overflow :=
  ⟨reachable_cxC4, by decide, by decide, by decide, rfl⟩

/-- C4 (amended): on every reachable state, `execute_distribution` succeeds
iff the pool is Confirming, not paused, approval strictly exceeds rejection
AND the winner-payout multiplication `current_lamports * 500` fits in u64
(no caller or deadline condition); on success the pool moves to
Distributing. -/
theorem c4_execute_gate (s : PoolState) (h : Reachable s) :
    ((∃ s', execute_distribution s = .ok s') ↔
      (s.status = PoolStatus.Confirming ∧ s.paused = false
        ∧ s.reject_lamports < s.approve_lamports
        ∧ s.current_lamports * WINNER_SHARE_BPS < U64LIMIT))
    ∧ ∀ s', execute_distribution s = .ok s' →
        s'.status = PoolStatus.Distributing := by
  refine ⟨execute_distribution_ok_iff s (reachable_inv s h), ?_⟩
  intro s' hx
  exact (execute_distribution_fields s s' hx).1

/-- C4 witness: the gate characterization at the concrete confirming pool
`cxConf`, where distribution indeed succeeds. -/
theorem c4_execute_gate_witness :
    (∃ s', execute_distribution cxConf = .ok s')
    ∧ ∀ s', execute_distribution cxConf = .ok s' →
        s'.status = PoolStatus.Distributing := by
  have := c4_execute_gate cxConf reachable_cxConf
  exact ⟨this.1.mpr ⟨by decide, by decide, by decide, by decide⟩, this.2⟩

/-- C5, counterexample: in the reachable state `cxC5` a contributor refunded
during Funding (after the deadline) still voted with their pre-refund weight
100, so `approve + reject = 100` strictly exceeds the pool value 50
snapshotted when `propose_finalize` ran — the claimed bound is false on the
code, which checks only a positive `amount_lamports` and never `claimed` in
`confirm_vote`. -/
theorem c5_counterexample :
    Reachable cxC5
    ∧ cxC5.proposal_current = 50
    ∧ cxC5.approve_lamports + cxC5.reject_lamports = 100
    ∧ ¬(cxC5.approve_lamports + cxC5.reject_lamports ≤ cxC5.proposal_current) :=
  ⟨reachable_cxC5, by decide, by decide, by decide⟩

/-- C5 (amended): in every reachable state, `approve + reject` equals the
sum of the snapshot weights of the contributors who actually voted (each
votes at most once, with weight equal to their contribution-record amount),
and is bounded by the total ever contributed (`amtSum`, refunded records
included) — but not by the current amount at proposal time, since `refund`
does not disqualify the contribution record from voting. -/
theorem c5_vote_weight_bound (s : PoolState) (h : Reachable s) :
    s.approve_lamports + s.reject_lamports = votedWeightSum s
    ∧ (∀ k, k ∈ s.voteKeys →
        (s.votes k).weight = (s.contribs k).amount_lamports)
    ∧ votedWeightSum s ≤ amtSum s := by
  have hi := reachable_inv s h
  refine ⟨hi.tally, fun k hk => (hi.onV k hk).2, ?_⟩
  unfold votedWeightSum amtSum
  calc (s.voteKeys.sum fun k => (s.votes k).weight)
      = s.voteKeys.sum fun k => (s.contribs k).amount_lamports :=
        Finset.sum_congr rfl fun k hk => (hi.onV k hk).2
    _ ≤ s.contribKeys.sum fun k => (s.contribs k).amount_lamports :=
        Finset.sum_le_sum_of_subset hi.subV

/-- C5 witness: the amended tally equations hold in `cxC5`. -/
theorem c5_vote_weight_bound_witness :
    cxC5.approve_lamports + cxC5.reject_lamports = votedWeightSum cxC5
    ∧ votedWeightSum cxC5 ≤ amtSum cxC5 := by
  have := c5_vote_weight_bound cxC5 reachable_cxC5
  exact ⟨this.1, this.2.2⟩

/-- C6: with the pool paused, refund still succeeds whenever its status
precondition (Cancelled, or Funding past the deadline) holds for a live
unclaimed contribution, while contribute (of a positive amount), claim,
execute_distribution and propose_finalize all fail with the pool-paused
error. -/
theorem c6_pause_semantics (s : PoolState) (h : Reachable s)
    (hp : s.paused = true) :
    (∀ now who, (s.status = PoolStatus.Cancelled
        ∨ (s.status = PoolStatus.Funding ∧ s.deadline < now)) →
      (s.contribs who).claimed = false →
      0 < (s.contribs who).amount_lamports →
      ∃ s', refund s now who = .ok s')
    ∧ (∀ now who a, 0 < a → contribute s now who a = .error .PoolPaused)
    ∧ (∀ who, claim s who = .error .PoolPaused)
    ∧ execute_distribution s = .error .PoolPaused
    ∧ (∀ now, propose_finalize s now = .error .PoolPaused) := by
  refine ⟨?_, ?_, ?_, execute_paused s hp, fun now => propose_paused s now hp⟩
  · intro now who hstat hcl hamt
    exact refund_succeeds s (reachable_inv s h) now who hstat hcl hamt
  · intro now who a ha
    exact contribute_paused s now who a hp (by omega)
  · intro who
    exact claim_paused s who hp

/-- C6 witness: in the concrete paused cancelled pool `cxPaused`,
the refund of contributor 0 succeeds while the four paused operations fail. -/
theorem c6_pause_semantics_witness :
    (∃ s', refund cxPaused 12 0 = .ok s')
    ∧ contribute cxPaused 5 1 7 = .error .PoolPaused
    ∧ claim cxPaused 0 = .error .PoolPaused
    ∧ execute_distribution cxPaused = .error .PoolPaused
    ∧ propose_finalize cxPaused 6 = .error .PoolPaused := by
  have hc := c6_pause_semantics cxPaused reachable_cxPaused (by decide)
  exact ⟨hc.1 12 0 (Or.inl (by decide)) (by decide) (by decide),
    hc.2.1 5 1 7 (by decide), hc.2.2.1 0, hc.2.2.2.1, hc.2.2.2.2 6⟩

/-- C7: `expire_confirmation` succeeds exactly when the pool is Confirming
and the clock has reached the confirmation deadline; it then cancels the
pool when approval does not strictly exceed rejection, and otherwise
returns the state entirely unchanged. -/
theorem c7_expire_confirmation (s : PoolState) (now : Int) :
    ((∃ s', expire_confirmation s now = .ok s') ↔
      (s.status = PoolStatus.Confirming ∧ s.confirm_deadline ≤ now))
    ∧ (s.status = PoolStatus.Confirming → s.confirm_deadline ≤ now →
      expire_confirmation s now =
        .ok (if s.approve_lamports ≤ s.reject_lamports
          then { s with status := PoolStatus.Cancelled } else s)) := by
  constructor
  · constructor
    · rintro ⟨s', hx⟩
      unfold expire_confirmation at hx
      split at hx
      next => exact Except.noConfusion hx
      split at hx
      next => exact Except.noConfusion hx
      case _ h1 h2 => exact ⟨not_not.mp h1, by omega⟩
    · rintro ⟨h1, h2⟩
      unfold expire_confirmation
      rw [if_neg (not_not_intro h1), if_neg (by omega)]
      split
      · exact ⟨_, rfl⟩
      · exact ⟨_, rfl⟩
  · intro h1 h2
    unfold expire_confirmation
    rw [if_neg (not_not_intro h1), if_neg (by omega)]
    split
    next hc => rfl
    next hc => rfl

/-- C7 witness: expiring `cxConf` (approval 100 ahead of rejection 0) after its
deadline succeeds and is a strict no-op. -/
theorem c7_expire_confirmation_witness :
    (∃ s', expire_confirmation cxConf 200000 = .ok s')
    ∧ expire_confirmation cxConf 200000 = .ok cxConf := by
  have hc := c7_expire_confirmation cxConf 200000
  have h2 := hc.2 (by decide) (by decide)
  refine ⟨hc.1.mpr ⟨by decide, by decide⟩, ?_⟩
  rw [h2, if_neg (by decide)]

/-- C8 (arithmetic modelled from the spec, §7(c)): whenever the u64
additions in `contribute` (contribution record and pool total) or
`confirm_vote` (approve/reject tallies), or the basis-point multiplication
in `execute_distribution`, would exceed `2^64 - 1` with every earlier guard
passing, the call fails with an overflow error instead of wrapping. -/
theorem c8_overflow_is_error (s : PoolState) :
    (∀ now who a, 0 < a → s.paused = false → s.status = PoolStatus.Funding →
      now < s.deadline →
      (U64LIMIT ≤ (s.contribs who).amount_lamports + a
        ∨ U64LIMIT ≤ s.current_lamports + a) →
      contribute s now who a = .error .Overflow)
    ∧ (∀ now who ap, s.status = PoolStatus.Confirming →
      now < s.confirm_deadline →
      0 < (s.contribs who).amount_lamports → (s.votes who).has_voted = false →
      U64LIMIT ≤ (if ap then s.approve_lamports else s.reject_lamports)
        + (s.contribs who).amount_lamports →
      confirm_vote s now who ap = .error .Overflow)
    ∧ (s.paused = false → s.status = PoolStatus.Confirming →
      s.reject_lamports < s.approve_lamports →
      U64LIMIT ≤ s.current_lamports * WINNER_SHARE_BPS →
      execute_distribution s = .error .Overflow) := by
  refine ⟨?_, ?_, ?_⟩
  · intro now who a ha hp hstF hdl hov
    unfold contribute
    rw [if_neg (by omega), if_neg (by simp [hp]), if_neg (not_not_intro hstF),
      if_neg (by omega)]
    simp only []
    by_cases hfr : (s.contribs who).amount_lamports = 0
    · rw [if_pos hfr]
      by_cases hcnt : U32LIMIT ≤ s.contributor_count + 1
      · rw [if_pos hcnt]
      · rw [if_neg hcnt]
        by_cases h1 : U64LIMIT ≤ (s.contribs who).amount_lamports + a
        · rw [if_pos h1]
        · rw [if_neg h1, if_pos (by omega)]
    · rw [if_neg hfr]
      by_cases h1 : U64LIMIT ≤ (s.contribs who).amount_lamports + a
      · rw [if_pos h1]
      · rw [if_neg h1, if_pos (by omega)]
  · intro now who ap hstC hdl hamt hnv hov
    unfold confirm_vote
    rw [if_neg (not_not_intro hstC), if_neg (by omega)]
    simp only []
    rw [if_neg (by omega), if_neg (by simp [hnv])]
    cases ap with
    | true =>
      have hov2 : U64LIMIT ≤ s.approve_lamports
          + (s.contribs who).amount_lamports := by simpa using hov
      show (if U64LIMIT ≤ s.approve_lamports + (s.contribs who).amount_lamports
        then Except.error LaunchError.Overflow else _) = _
      rw [if_pos hov2]
    | false =>
      have hov2 : U64LIMIT ≤ s.reject_lamports
          + (s.contribs who).amount_lamports := by simpa using hov
      show (if U64LIMIT ≤ s.reject_lamports + (s.contribs who).amount_lamports
        then Except.error LaunchError.Overflow else _) = _
      rw [if_pos hov2]
  · intro hp hstC happ hov
    unfold execute_distribution
    rw [if_neg (by simp [hp]), if_neg (not_not_intro hstC), if_neg (by omega),
      if_pos hov]

/-- A funding pool whose single contribution already holds the u64 maximum. -/
def mkC8Contribute : PoolState :=
  { initialPool 100 10 172800 with
    contribKeys := {0}
    contribs := fun _ => ⟨U64LIMIT - 1, false, 0⟩
    current_lamports := U64LIMIT - 1
    escrow_lamports := U64LIMIT - 1 }

/-- A confirming pool whose tallies sit just below the u64 maximum. -/
def mkC8Vote : PoolState :=
  { initialPool 100 10 172800 with
    status := PoolStatus.Confirming
    confirm_deadline := 100
    contribKeys := {0}
    contribs := fun _ => ⟨100, false, 0⟩
    current_lamports := 100
    escrow_lamports := 100
    approve_lamports := U64LIMIT - 50
    reject_lamports := U64LIMIT - 50
    proposal_current := 100 }

/-- A confirming pool holding the u64 maximum of lamports. -/
def mkC8Exec : PoolState :=
  { initialPool 100 10 172800 with
    status := PoolStatus.Confirming
    current_lamports := U64LIMIT - 1
    escrow_lamports := U64LIMIT - 1
    approve_lamports := 1
    proposal_current := U64LIMIT - 1 }

/-- C8 witness: each overflow site, driven to its limit, errors out. -/
theorem c8_overflow_is_error_witness :
    contribute mkC8Contribute 5 0 1 = .error .Overflow
    ∧ confirm_vote mkC8Vote 5 0 true = .error .Overflow
    ∧ confirm_vote mkC8Vote 5 1 false = .error .Overflow
    ∧ execute_distribution mkC8Exec = .error .Overflow := by
  refine ⟨(c8_overflow_is_error mkC8Contribute).1 5 0 1 (by decide) (by decide)
      (by decide) (by decide) (Or.inl (by decide)),
    (c8_overflow_is_error mkC8Vote).2.1 5 0 true (by decide) (by decide)
      (by decide) (by decide) (by decide),
    (c8_overflow_is_error mkC8Vote).2.1 5 1 false (by decide) (by decide)
      (by decide) (by decide) (by decide),
    (c8_overflow_is_error mkC8Exec).2.2 (by decide) (by decide) (by decide)
      (by decide)⟩

/-- C9: every reachable Distributing/Complete pool still holds a strictly
positive `current_lamports` (refunds are illegal from Confirming on and
`propose_finalize` demands a positive value), the u128 product in `claim`
always fits, and consequently `claim` can never fail with the
overflow/unwrap error. -/
theorem c9_claim_division_safe (s : PoolState) (h : Reachable s)
    (hst : s.status = PoolStatus.Distributing ∨ s.status = PoolStatus.Complete) :
    0 < s.current_lamports
    ∧ (∀ who, contributorTokens * (s.contribs who).amount_lamports < U128LIMIT)
    ∧ (∀ who, claim s who ≠ .error .Overflow) := by
  have hi := reachable_inv s h
  have hc0 := (hi.pDist hst).1
  have hC64 : contributorTokens < U64LIMIT := by decide
  have hsq : U64LIMIT * U64LIMIT = U128LIMIT := by decide
  have hmul : ∀ who,
      contributorTokens * (s.contribs who).amount_lamports < U128LIMIT := by
    intro who
    have hb := hi.bndC who
    have := Nat.mul_lt_mul_of_lt_of_lt hC64 hb
    omega
  refine ⟨hc0, hmul, ?_⟩
  intro who
  have hmw := hmul who
  by_cases hpz : s.paused = true
  · rw [claim_paused s who hpz]
    simp
  · have hp' : s.paused = false := by revert hpz; cases s.paused <;> simp
    unfold claim
    rw [if_neg (by simp [hp']), if_neg (not_not_intro hst)]
    simp only []
    by_cases hcl : (s.contribs who).claimed = true
    · rw [if_pos hcl]
      simp
    · rw [if_neg hcl]
      by_cases hamt : (s.contribs who).amount_lamports = 0
      · rw [if_pos hamt]
        simp
      · rw [if_neg hamt, if_neg (by omega), if_neg (by omega)]
        by_cases hpt : s.pool_token_balance < contributorTokens
            * (s.contribs who).amount_lamports / s.current_lamports % U64LIMIT
        · rw [if_pos hpt]
          simp
        · rw [if_neg hpt]
          simp

/-- C9 witness: the distributing pool `cxC1` has positive value and its
claims are overflow-free. -/
theorem c9_claim_division_safe_witness :
    0 < cxC1.current_lamports
    ∧ (∀ who, contributorTokens * (cxC1.contribs who).amount_lamports
        < U128LIMIT)
    ∧ ∀ who, claim cxC1 who ≠ .error .Overflow :=
  c9_claim_division_safe cxC1 reachable_cxC1 (Or.inl (by decide))

/-- C10: for every positive pool denominator `V` and amounts summing to at
most `V`, the total of the per-contributor entitlements
`floor(contributor_tokens * a / V)` never exceeds `contributor_tokens`, the
94% share retained for contributors. -/
theorem c10_total_claims_bounded (V : Nat) (l : List Nat)
    (hV : 0 < V) (hsum : l.sum ≤ V) :
    (l.map fun a => contributorTokens * a / V).sum ≤ contributorTokens := by
  have h0 : (l.map fun a => contributorTokens * a / V)
      = (l.map fun a => contributorTokens * a).map fun x => x / V := by
    rw [List.map_map]
    rfl
  rw [h0]
  calc ((l.map fun a => contributorTokens * a).map fun x => x / V).sum
      ≤ (l.map fun a => contributorTokens * a).sum / V := list_sum_div_le _ _
    _ = contributorTokens * l.sum / V := by rw [list_sum_mul]
    _ ≤ contributorTokens * V / V :=
        Nat.div_le_div_right (Nat.mul_le_mul_left _ hsum)
    _ = contributorTokens := Nat.mul_div_cancel _ hV

/-- C10 witness: the bound at the 60/40 example of the spec over a pool of 100. -/
theorem c10_total_claims_bounded_witness :
    0 < 100 ∧ ([60, 40] : List Nat).sum ≤ 100
    ∧ (([60, 40] : List Nat).map
        fun a => contributorTokens * a / 100).sum ≤ contributorTokens :=
  ⟨by decide, by decide, c10_total_claims_bounded 100 [60, 40] (by decide)
    (by decide)⟩

end UnionChant
